import Mathlib

/-
Shallow embedding of src/willowtree/lp.py.

The file models the three phases of the function lp:
  * the per step escalation loop (solver calls, validation, tolerance
    escalation, flagging) -- solver behaviour is an oracle parameter;
  * the neighbour search and masking arithmetic of the repair phase;
  * the interpolation pass and the final grid resizing.
Floating point scalars of the source are modelled as rationals everywhere the
source only compares, adds and multiplies them, and as reals where the source
takes square roots (the Curran interpolation weights).
-/

namespace Willowtree

/-- Result record returned by one linear programming solve, as consumed by the
escalation loop: solver exit status (0 success, 1 iteration limit, 2 infeasible
start), achieved objective value (field fun of the scipy result; named fval
here because fun is reserved), and the solution vector x. -/
structure LPResult where
  status : ℤ
  fval : ℚ
  x : List ℚ

/-- Closeness predicate of np.isclose(a, b, 1e-6): absolute tolerance 1e-8
(the numpy default) plus relative tolerance 1e-6 scaled by the reference. -/
def isclose (a b : ℚ) : Bool :=
  decide (|a - b| ≤ 1 / 100000000 + 1 / 1000000 * |b|)

/-- Row sums of the solution vector x viewed as an n by n matrix (P.reshape(n, n)
followed by the axis 1 sum in the source function test). -/
def rowSums (n : ℕ) (x : List ℚ) : List ℚ :=
  (List.range n).map fun i => ((x.drop (n * i)).take n).sum

/-- Source function test(n, P): reshape the candidate solution to n by n and
check that every row sums to 1 within np.isclose tolerance; a reshape failure
(length different from n squared) returns False through the except branch. -/
def test (n : ℕ) (x : List ℚ) : Bool :=
  if x.length = n * n then (rowSums n x).all fun s => isclose s 1 else false

/-- Rejection condition of the escalation while loop (source line 260): status
nonzero, or objective outside the interval from 0 to 1, or some solution
component outside that interval, or the row sum test failing. -/
def reject (n : ℕ) (P : LPResult) : Bool :=
  (P.status != 0) || decide (P.fval < 0) || decide (P.fval > 1) ||
    (P.x.any fun v => decide (v < 0)) || (P.x.any fun v => decide (v > 1)) ||
    (test n P.x != true)

/-- Oracle describing the external solver behaviour on one time step: res j is
the result of the j-th solve of the step (which runs at tolerance tol * 10 ^ j),
firstNan records whether the first solve returned the non numeric infeasible
start sentinel (the type check of source line 246), and timeOK j is the wall
clock budget check made together with the j-th tolerance check. -/
structure StepOracle where
  res : ℕ → LPResult
  firstNan : Bool
  timeOK : ℕ → Bool

/-- Condition under which the while loop halts right after inspecting the j-th
solve: the validator accepts it, or no escalation is possible because the
current tolerance tol * 10 ^ j has reached 1e-3 or the time budget is spent. -/
def stops (n : ℕ) (tol : ℚ) (o : StepOracle) (j : ℕ) : Bool :=
  !(reject n (o.res j)) || !(decide (tol * 10 ^ j < 1 / 1000) && o.timeOK j)

/-- Fuel bound for the escalation loop: for positive tol the running tolerance
reaches 1e-3 after at most this many decuplings.  The source loop carries no
fuel; this bound only drives the structural recursion of stopIdxGo and is
proved large enough below, so the model halts exactly where the loop does. -/
def escalFuel (tol : ℚ) : ℕ := (⌈(1 / 1000 : ℚ) / tol⌉).toNat + 1

/-- Fuelled search for the first halt index of the while loop, starting at j. -/
def stopIdxGo (n : ℕ) (tol : ℚ) (o : StepOracle) : ℕ → ℕ → ℕ
  | 0, j => j
  | f + 1, j => if stops n tol o j then j else stopIdxGo n tol o f (j + 1)

/-- Index of the solve at which the while loop halts for one step. -/
def stopIdx (n : ℕ) (tol : ℚ) (o : StepOracle) : ℕ :=
  stopIdxGo n tol o (escalFuel tol) 0

/-- Outcome of one time step: the flag written into the flag array, the stored
solution vector (row major n by n matrix), the tolerance used for the first
solve of the step, and the number of solves performed. -/
structure StepRecord where
  flag : ℤ
  x : List ℚ
  firstTol : ℚ
  nSolves : ℕ

/-- One iteration of the outer for loop of lp (source lines 240-302) for a
single time step: when the first solve returns the infeasible start sentinel
the step is immediately flagged -1 and its slot keeps the preallocated zero
matrix (no further solve happens); otherwise the escalation loop runs and the
last inspected solution is stored (source line 282), with flag 0 exactly when
that last solution was accepted by the validator. -/
def runStep (n : ℕ) (tol : ℚ) (o : StepOracle) : StepRecord :=
  if o.firstNan then ⟨-1, List.replicate (n * n) 0, tol, 1⟩
  else
    ⟨if reject n (o.res (stopIdx n tol o)) then -1 else 0,
     (o.res (stopIdx n tol o)).x, tol, stopIdx n tol o + 1⟩

/-- Outer loop over the time steps, threading the mutable variable tol: each
step body starts from the current tol and ends by resetting tol to the caller
supplied initial tolerance (source line 302). -/
def runChainGo (n : ℕ) (initTol : ℚ) : ℚ → List StepOracle → List StepRecord
  | _, [] => []
  | tolCur, o :: rest => runStep n tolCur o :: runChainGo n initTol initTol rest

/-- Records of all time steps; the loop enters with tol = initial_tol since
initial_tol is a copy of the caller argument (source line 188). -/
def runChain (n : ℕ) (initTol : ℚ) (oras : List StepOracle) : List StepRecord :=
  runChainGo n initTol initTol oras

/-- Tolerances at which the escalation loop submits solves for one step: the
initial solve at tol, and one further solve at tol * 10 ^ j for each
escalation, up to the halt index. -/
def submittedTols (n : ℕ) (tol : ℚ) (o : StepOracle) : List ℚ :=
  (List.range (stopIdx n tol o + 1)).map fun j => tol * 10 ^ j

/-- Time grid np.linspace(0, 1, k + 1): entry j is j / k. -/
def tgrid (k : ℕ) : List ℚ := (List.range (k + 1)).map fun j : ℕ => (j : ℚ) / (k : ℚ)

/-- Per step sizes h = t[2:] - t[1:-1]; the zipWith truncation matches the
numpy slice lengths. -/
def hsteps (k : ℕ) : List ℚ :=
  List.zipWith (fun a b => a - b) ((tgrid k).drop 2) ((tgrid k).drop 1)

/-- Mixing coefficients alpha = h / t[1:-1]. -/
def alphaList (k : ℕ) : List ℚ :=
  List.zipWith (fun a b => a / b) (hsteps k) ((tgrid k).drop 1)

/-- Indices of the nonzero entries of an integer vector (np.nonzero). -/
def nonzeroIdx (v : List ℤ) : List ℕ :=
  (List.range v.length).filter fun i => v.getD i 0 != 0

/-- Failure positions: indices whose flag entry is nonzero (source line 308). -/
def failureIdx (flag : List ℤ) : List ℕ := nonzeroIdx flag

/-- Success positions: indices whose flag entry plus 1 is nonzero (source 309). -/
def successIdx (flag : List ℤ) : List ℕ := nonzeroIdx (flag.map (· + 1))

/-- max(x for x in success if x < f); none models the generator raising
ValueError on an empty candidate set. -/
def maxBelow (success : List ℕ) (f : ℕ) : Option ℕ :=
  (success.filter fun s => decide (s < f)).max?

/-- min(x for x in success if x > f). -/
def minAbove (success : List ℕ) (f : ℕ) : Option ℕ :=
  (success.filter fun s => decide (f < s)).min?

/-- Neighbour collection loop: append sel f for the listed failures in order,
aborting the whole loop at the first missing neighbour, exactly as the
ValueError ends the try blocks of source lines 353-375. -/
def scanAbort (sel : ℕ → Option ℕ) : List ℕ → List ℕ
  | [] => []
  | f :: rest =>
    match sel f with
    | none => []
    | some v => v :: scanAbort sel rest

/-- minvec of the source: lower neighbours collected from the last failure
backwards (aborting at the first failure with no success below it), kept
sorted ascending by the minvec.sort() call after each append. -/
def minvecSorted (flag : List ℤ) : List ℕ :=
  List.insertionSort (· ≤ ·)
    (scanAbort (maxBelow (successIdx flag)) (failureIdx flag).reverse)

/-- maxvec of the source: upper neighbours collected from the first failure
forwards, aborting at the first failure with no success above it. -/
def maxvecList (flag : List ℤ) : List ℕ :=
  scanAbort (minAbove (successIdx flag)) (failureIdx flag)

/-- np.full(len(flag), -1) followed by repl[i] = 1 for every failure i
(source lines 404-414). -/
def replInit (m : ℕ) (failure : List ℕ) : List ℤ :=
  (List.range m).map fun i => if i ∈ failure then 1 else -1

/-- numpy masked assignment arr[arr > 0] = vals: the j-th positive position of
arr receives vals[j], every other position keeps its entry. -/
def maskedAssign (arr vals : List ℤ) : List ℤ :=
  (List.range arr.length).map fun i =>
    if arr.getD i 0 > 0 then
      vals.getD ((List.range i).filter fun i2 => decide (arr.getD i2 0 > 0)).length
        (arr.getD i 0)
    else arr.getD i 0

/-- minvec left padded with -1 up to the length of failure (source line 420). -/
def paddedMin (flag : List ℤ) : List ℤ :=
  List.replicate ((failureIdx flag).length - (minvecSorted flag).length) (-1) ++
    (minvecSorted flag).map fun v => Int.ofNat v

/-- maxvec right padded with -1 up to the length of failure (source line 428). -/
def paddedMax (flag : List ℤ) : List ℤ :=
  ((maxvecList flag).map fun v => Int.ofNat v) ++
    List.replicate ((failureIdx flag).length - (maxvecList flag).length) (-1)

/-- repl_min after the masked assignment of source line 422. -/
def replMin (flag : List ℤ) : List ℤ :=
  maskedAssign (replInit flag.length (failureIdx flag)) (paddedMin flag)

/-- repl_max after the masked assignment of source line 430. -/
def replMax (flag : List ℤ) : List ℤ :=
  maskedAssign (replInit flag.length (failureIdx flag)) (paddedMax flag)

/-- succ_vec = (repl_min > -1) & (repl_min < repl_max), re-encoded as a 0 or 1
integer vector (source lines 432-434). -/
def succVec (flag : List ℤ) : List ℤ :=
  List.zipWith (fun a b => if a > -1 ∧ a < b then 1 else 0) (replMin flag) (replMax flag)

/-- Positions where succ_vec is nonzero (np.argwhere(succ_vec)). -/
def windowList (flag : List ℤ) : List ℕ :=
  (List.range flag.length).filter fun i => (succVec flag).getD i 0 != 0

/-- threshold_low: first nonzero position of succ_vec, or -1 when there is
none (the except branch of source lines 436-440). -/
def thLow (flag : List ℤ) : ℤ :=
  match windowList flag with
  | [] => -1
  | w :: _ => (w : ℤ)

/-- threshold_high: last nonzero position of succ_vec, or -1 when none. -/
def thHigh (flag : List ℤ) : ℤ :=
  match windowList flag with
  | [] => -1
  | w :: rest => ((w :: rest).getLastD 0 : ℤ)

/-- failure restricted to the positions between the thresholds (source 442). -/
def restrictedFailure (flag : List ℤ) : List ℕ :=
  (failureIdx flag).filter fun f =>
    decide (thLow flag ≤ (f : ℤ)) && decide ((f : ℤ) ≤ thHigh flag)

/-- minvec = repl_min * succ_vec filtered to the entries above -1
(source lines 445 and 448). -/
def minvecMasked (flag : List ℤ) : List ℤ :=
  (List.zipWith (· * ·) (replMin flag) (succVec flag)).filter fun a => decide (a > -1)

/-- maxvec = repl_max * succ_vec filtered to the positive entries
(source lines 446 and 449). -/
def maxvecMasked (flag : List ℤ) : List ℤ :=
  (List.zipWith (· * ·) (replMax flag) (succVec flag)).filter fun a => decide (a > 0)

/-- flag[failure] = 0 for the windowed failures, executed inside the branch
guarded by (flag == -1).any() (source lines 456 and 467). -/
def newFlag (flag : List ℤ) : List ℤ :=
  if flag.any fun v => v == -1 then
    (restrictedFailure flag).foldl (fun fl p => fl.set p 0) flag
  else flag

/-- success recomputed on the repaired flags (source line 471). -/
def finalSuccess (flag : List ℤ) : List ℕ := successIdx (newFlag flag)

/-- Resized time grid t_new (source lines 478-493): leading segment of t when
the surviving range starts at step 0; re-anchored at 0 and trimmed by value
comparison otherwise; the first two grid points when no step survives (the
bare except catching the IndexError raised on empty success). -/
def tNew (k : ℕ) (flag : List ℤ) : List ℚ :=
  match finalSuccess flag with
  | [] => (tgrid k).take 2
  | a :: rest =>
    if a = 0 then (tgrid k).take ((a :: rest).length + 2)
    else 0 :: ((tgrid k).filter fun v =>
      decide ((tgrid k).getD (a + 1) 0 ≤ v) &&
        decide (v ≤ (tgrid k).getD ((a :: rest).getLastD 0 + 2) 0))

/-- Shortening notice: printed when the last entry of t_new differs from the
last entry of t, and unconditionally in the all failed except branch
(source lines 488-493). -/
def noticeShort (k : ℕ) (flag : List ℤ) : Bool :=
  match finalSuccess flag with
  | [] => true
  | _ :: _ => (tNew k flag).getLastD 0 != (tgrid k).getLastD 0

/-- Curran interpolation (source function interpolate): blend the two
neighbour matrices with weights built from x_i = 1 / sqrt(1 + alpha_i). -/
noncomputable def interpolate {n : ℕ} (Pmin Pmax : Fin n → Fin n → ℝ)
    (alphaMin alphaMax alphaInterp : ℝ) : Fin n → Fin n → ℝ :=
  let x1 := 1 / Real.sqrt (1 + alphaMin)
  let x2 := 1 / Real.sqrt (1 + alphaMax)
  let x3 := 1 / Real.sqrt (1 + alphaInterp)
  ((x3 - x2) / (x1 - x2)) • Pmin + ((x1 - x3) / (x1 - x2)) • Pmax

/-- Stored solution vector reshaped to an n by n real matrix. -/
noncomputable def reshapeQ (n : ℕ) (x : List ℚ) : Fin n → Fin n → ℝ :=
  fun i j => ((x.getD (n * i.1 + j.1) 0 : ℚ) : ℝ)

/-- Positional assignment base[ps] = vs of numpy integer array indexing: the
j-th listed position receives the j-th value. -/
def assignAt {α : Type} : List α → List ℕ → List α → List α
  | base, [], _ => base
  | base, _ :: _, [] => base
  | base, p :: ps, v :: vs => assignAt (base.set p v) ps vs

/-- Interpolation pass of source lines 456-463: inside the branch guarded by
(flag == -1).any(), each windowed failure position failure[i] receives the
interpolation taken at positions minvec[i] and maxvec[i] of the masked arrays,
reading matrices and coefficients as they stood before the assignment. -/
noncomputable def repairedPx (n k : ℕ) (Px0 : List (List ℚ)) (flag : List ℤ) :
    List (Fin n → Fin n → ℝ) :=
  let PxR := Px0.map (reshapeQ n)
  if flag.any fun v => v == -1 then
    assignAt PxR (restrictedFailure flag)
      ((List.range (restrictedFailure flag).length).map fun i =>
        interpolate
          (PxR.getD ((minvecMasked flag).getD i 0).toNat (reshapeQ n []))
          (PxR.getD ((maxvecMasked flag).getD i 0).toNat (reshapeQ n []))
          (((alphaList k).getD ((minvecMasked flag).getD i 0).toNat 0 : ℚ) : ℝ)
          (((alphaList k).getD ((maxvecMasked flag).getD i 0).toNat 0 : ℚ) : ℝ)
          (((alphaList k).getD ((restrictedFailure flag).getD i 0) 0 : ℚ) : ℝ))
  else PxR

/-- Full model of lp for k time steps: the escalation loop runs on the k - 1
per step solver oracles. -/
def lpRecords (n k : ℕ) (tol : ℚ) (ora : ℕ → StepOracle) : List StepRecord :=
  runChain n tol ((List.range (k - 1)).map ora)

/-- Flag vector after the escalation loop. -/
def lpFlags (n k : ℕ) (tol : ℚ) (ora : ℕ → StepOracle) : List ℤ :=
  (lpRecords n k tol ora).map fun r => r.flag

/-- Stored (flattened) matrices after the escalation loop. -/
def lpPx0 (n k : ℕ) (tol : ℚ) (ora : ℕ → StepOracle) : List (List ℚ) :=
  (lpRecords n k tol ora).map fun r => r.x

/-- Final Markov chain Px = Px[success] (source lines 471-472). -/
noncomputable def lpPx (n k : ℕ) (tol : ℚ) (ora : ℕ → StepOracle) :
    List (Fin n → Fin n → ℝ) :=
  (finalSuccess (lpFlags n k tol ora)).map fun i =>
    (repairedPx n k (lpPx0 n k tol ora) (lpFlags n k tol ora)).getD i (reshapeQ n [])

/-- Final grid t_new of the full model. -/
def lpT (n k : ℕ) (tol : ℚ) (ora : ℕ → StepOracle) : List ℚ :=
  tNew k (lpFlags n k tol ora)

/-- Shortening notice of the full model. -/
def lpNoticeShort (n k : ℕ) (tol : ℚ) (ora : ℕ → StepOracle) : Bool :=
  noticeShort k (lpFlags n k tol ora)

/-- Concrete oracle whose every result passes the validator for n = 1. -/
def OGood : StepOracle := ⟨fun _ => ⟨0, 0, [1]⟩, false, fun _ => true⟩

/-- Concrete oracle whose every result fails the validator (iteration limit
status) with the budget never spent. -/
def ORej : StepOracle := ⟨fun _ => ⟨1, 0, [1]⟩, false, fun _ => true⟩

/-- Concrete oracle whose first solve returns the infeasible start sentinel. -/
def ONan : StepOracle := ⟨fun _ => ⟨2, 0, []⟩, true, fun _ => true⟩

/-- Oracle family for the concrete k = 5 scenario: steps 0, 1, 2 solve cleanly
at the first attempt, step 3 never passes the validator. -/
def oraC5 : ℕ → StepOracle := fun i => if i < 3 then OGood else ORej

/-- Flag pattern exhibiting the neighbour selection defect of the repair pass:
steps 0, 1, 3 valid and step 2 failed. -/
def flagC2 : List ℤ := [0, 0, -1, 0]

/-- Acceptance conditions of the quality validator, spelled out as the claim
states them: solver success status, objective within 0..1, every solution
component within 0..1, solution length n squared, and every row of the
reshaped matrix summing to 1 within the np.isclose tolerance (absolute 1e-8
plus relative 1e-6 against the reference 1). -/
def acceptSpec (n : ℕ) (P : LPResult) : Prop :=
  P.status = 0 ∧ 0 ≤ P.fval ∧ P.fval ≤ 1 ∧ (∀ v ∈ P.x, 0 ≤ v ∧ v ≤ 1) ∧
    P.x.length = n * n ∧ ∀ s ∈ rowSums n P.x, |s - 1| ≤ 1 / 100000000 + 1 / 1000000

/-- Conclusion of claim C1 for one step: the step ends flagged valid exactly
when the validator conditions hold of the result the loop halted on; the last
inspected solution is what gets stored and no solve happens past the halt
index; and any accepted solution is row stochastic within the isclose
tolerance with all entries in 0..1. -/
def sC1 (n : ℕ) (tol : ℚ) (o : StepOracle) : Prop :=
  ((runStep n tol o).flag = 0 ↔ acceptSpec n (o.res (stopIdx n tol o))) ∧
    (runStep n tol o).x = (o.res (stopIdx n tol o)).x ∧
    (runStep n tol o).nSolves = stopIdx n tol o + 1 ∧
    ((runStep n tol o).flag = 0 →
      (∀ s ∈ rowSums n (runStep n tol o).x, |s - 1| ≤ 1 / 100000000 + 1 / 1000000) ∧
        ∀ v ∈ (runStep n tol o).x, 0 ≤ v ∧ v ≤ 1)

theorem stopIdxGo_le (n : ℕ) (tol : ℚ) (o : StepOracle) :
    ∀ f j, j ≤ stopIdxGo n tol o f j := by
  intro f
  induction f with
  | zero => intro j; exact Nat.le_refl j
  | succ f ih =>
    intro j
    cases hs : stops n tol o j with
    | true => simp [stopIdxGo, hs]
    | false =>
      simp only [stopIdxGo, hs, Bool.false_eq_true, if_false]
      exact Nat.le_trans (Nat.le_succ j) (ih (j + 1))

theorem not_stops_of_lt_stopIdxGo (n : ℕ) (tol : ℚ) (o : StepOracle) :
    ∀ f j i, j ≤ i → i < stopIdxGo n tol o f j → stops n tol o i = false := by
  intro f
  induction f with
  | zero => intro j i hji hi; simp only [stopIdxGo] at hi; omega
  | succ f ih =>
    intro j i hji hi
    cases hs : stops n tol o j with
    | true => simp only [stopIdxGo, hs, if_true] at hi; omega
    | false =>
      simp only [stopIdxGo, hs, Bool.false_eq_true, if_false] at hi
      rcases Nat.eq_or_lt_of_le hji with h | h
      · exact h ▸ hs
      · exact ih (j + 1) i h hi

theorem stopIdxGo_stops (n : ℕ) (tol : ℚ) (o : StepOracle) :
    ∀ f j, (∃ i, j ≤ i ∧ i < j + f ∧ stops n tol o i = true) →
      stops n tol o (stopIdxGo n tol o f j) = true := by
  intro f
  induction f with
  | zero => intro j ⟨i, h1, h2, _⟩; omega
  | succ f ih =>
    intro j ⟨i, h1, h2, h3⟩
    cases hs : stops n tol o j with
    | true => simp only [stopIdxGo, hs, if_true]
    | false =>
      simp only [stopIdxGo, hs, Bool.false_eq_true, if_false]
      refine ih (j + 1) ⟨i, ?_, by omega, h3⟩
      rcases Nat.eq_or_lt_of_le h1 with h | h
      · exact absurd (h ▸ hs) (by simp [h3])
      · exact h


theorem escalFuel_pos (tol : ℚ) : 0 < escalFuel tol := Nat.succ_pos _

theorem tol_ceiling_reached (tol : ℚ) (h : 0 < tol) :
    ¬ tol * 10 ^ (escalFuel tol - 1) < 1 / 1000 := by
  have hr : (0 : ℚ) < 1 / 1000 / tol := by positivity
  set jb : ℕ := (⌈(1 / 1000 : ℚ) / tol⌉).toNat with hjb
  have hcast : ((jb : ℤ) : ℚ) = ((⌈(1 / 1000 : ℚ) / tol⌉ : ℤ) : ℚ) := by
    rw [hjb, Int.toNat_of_nonneg (Int.ceil_nonneg hr.le)]
  have h1 : (1 / 1000 : ℚ) / tol ≤ (jb : ℚ) := by
    calc (1 / 1000 : ℚ) / tol ≤ ((⌈(1 / 1000 : ℚ) / tol⌉ : ℤ) : ℚ) := Int.le_ceil _
    _ = (jb : ℚ) := hcast.symm
  have h2 : (jb : ℚ) ≤ (10 : ℚ) ^ jb := by
    have := Nat.lt_pow_self (a := 10) (by norm_num) jb
    have := (Nat.cast_lt (α := ℚ)).mpr this
    push_cast at this
    exact le_of_lt this
  have h3 : (1 / 1000 : ℚ) ≤ tol * 10 ^ jb := by
    have := mul_le_mul_of_nonneg_left (le_trans h1 h2) h.le
    rwa [mul_div_cancel₀ _ (ne_of_gt h)] at this
  have : escalFuel tol - 1 = jb := by simp [escalFuel, hjb]
  rw [this]
  exact not_lt.mpr h3

theorem stops_stopIdx (n : ℕ) (tol : ℚ) (o : StepOracle) (h : 0 < tol) :
    stops n tol o (stopIdx n tol o) = true := by
  refine stopIdxGo_stops n tol o (escalFuel tol) 0 ⟨escalFuel tol - 1, Nat.zero_le _, ?_, ?_⟩
  · have := escalFuel_pos tol; omega
  · simp only [stops, Bool.or_eq_true, Bool.not_eq_true']
    right
    simp only [Bool.and_eq_false_iff, decide_eq_false_iff_not]
    left
    exact tol_ceiling_reached tol h

theorem not_stops_of_lt_stopIdx (n : ℕ) (tol : ℚ) (o : StepOracle) (i : ℕ)
    (hi : i < stopIdx n tol o) : stops n tol o i = false :=
  not_stops_of_lt_stopIdxGo n tol o (escalFuel tol) 0 i (Nat.zero_le i) hi

theorem stopIdx_eq_zero (n : ℕ) (tol : ℚ) (o : StepOracle)
    (h : stops n tol o 0 = true) : stopIdx n tol o = 0 := by
  unfold stopIdx escalFuel
  simp [stopIdxGo, h]

/-- Claim C3 as stated is false: with initial tolerance 1e-2 the very first
solve of a step is already submitted at a tolerance above the 1e-3 ceiling. -/
theorem claim_C3_cex : ∃ v ∈ submittedTols 1 (1 / 100) ORej, 1 / 1000 < v := by
  have h0 : stops 1 (1 / 100) ORej 0 = true := by
    simp only [stops, Bool.or_eq_true, Bool.not_eq_true']
    right
    simp only [Bool.and_eq_false_iff, decide_eq_false_iff_not]
    left
    norm_num
  have hJ : stopIdx 1 (1 / 100) ORej = 0 := stopIdx_eq_zero 1 (1 / 100) ORej h0
  refine ⟨1 / 100 * 10 ^ 0, ?_, by norm_num⟩
  rw [submittedTols, hJ]
  simp

/-- Claim C3 (amended): during one step, every tolerance submitted to the
solver is either the caller supplied initial tolerance (the first solve) or
the tenfold escalation of a tolerance that was still below the 1e-3 ceiling,
hence strictly below 1e-2. -/
theorem claim_C3 (n : ℕ) (tol : ℚ) (o : StepOracle) (_h : 0 < tol) :
    ∀ v ∈ submittedTols n tol o, v = tol ∨ v < 1 / 100 := by
  intro v hv
  simp only [submittedTols, List.mem_map, List.mem_range] at hv
  obtain ⟨j, hj, rfl⟩ := hv
  cases j with
  | zero => left; norm_num
  | succ j =>
    right
    have hlt : j < stopIdx n tol o := by omega
    have hns := not_stops_of_lt_stopIdx n tol o j hlt
    simp only [stops, Bool.or_eq_false_iff, Bool.not_eq_false', Bool.and_eq_true,
      decide_eq_true_eq] at hns
    have hsm : tol * 10 ^ j < 1 / 1000 := hns.2.1
    calc tol * 10 ^ (j + 1) = tol * 10 ^ j * 10 := by ring
    _ < 1 / 1000 * 10 := mul_lt_mul_of_pos_right hsm (by norm_num)
    _ = 1 / 100 := by norm_num

theorem claim_C3_witness :
    (0 : ℚ) < 1 / 1000000 ∧
      ∀ v ∈ submittedTols 1 (1 / 1000000) ORej, v = 1 / 1000000 ∨ v < 1 / 100 :=
  ⟨by norm_num, fun v hv => claim_C3 1 (1 / 1000000) ORej (by norm_num) v hv⟩

/-- Claim C4 as stated is false: a concrete step whose first solve returns the
infeasible start sentinel is flagged failed after that single solve, although
the tolerance is far below the ceiling and the budget check still passes, so
the step is not retried under relaxed tolerance. -/
theorem claim_C4_cex :
    (runStep 1 (1 / 1000000000) ONan).flag = -1 ∧
      (runStep 1 (1 / 1000000000) ONan).nSolves = 1 ∧
      (1 / 1000000000 : ℚ) < 1 / 1000 ∧ ONan.timeOK 0 = true := by
  refine ⟨?_, ?_, by norm_num, rfl⟩ <;> simp [runStep, ONan]

/-- Claim C4 (amended): when the first solve of a step returns the infeasible
start sentinel, the step is immediately flagged failed with exactly one solve
performed and no retries, regardless of tolerance or time budget. -/
theorem claim_C4 (n : ℕ) (tol : ℚ) (o : StepOracle) (h : o.firstNan = true) :
    (runStep n tol o).flag = -1 ∧ (runStep n tol o).nSolves = 1 := by
  constructor <;> simp [runStep, h]

theorem claim_C4_witness :
    ONan.firstNan = true ∧
      ((runStep 1 (1 / 1000000000) ONan).flag = -1 ∧
        (runStep 1 (1 / 1000000000) ONan).nSolves = 1) :=
  ⟨rfl, claim_C4 1 (1 / 1000000000) ONan rfl⟩

theorem runChainGo_firstTol (n : ℕ) (initTol : ℚ) :
    ∀ (oras : List StepOracle) (tolCur : ℚ) (r : StepRecord),
      r ∈ runChainGo n initTol tolCur oras →
        r.firstTol = tolCur ∨ r.firstTol = initTol := by
  intro oras
  induction oras with
  | nil => intro tolCur r hr; simp [runChainGo] at hr
  | cons o rest ih =>
    intro tolCur r hr
    simp only [runChainGo, List.mem_cons] at hr
    rcases hr with rfl | hr
    · left; cases h : o.firstNan <;> simp [runStep, h]
    · right; rcases ih initTol r hr with h | h <;> exact h

/-- Claim C7: every step of the chain performs its first solve at the caller
supplied initial tolerance (the loop resets tol at the end of each step body),
and for a step run at tolerance tol the first submitted tolerance is tol. -/
theorem claim_C7 (n : ℕ) (tol : ℚ) (oras : List StepOracle) :
    (∀ r ∈ runChain n tol oras, r.firstTol = tol) ∧
      ∀ o : StepOracle, (submittedTols n tol o).headD 0 = tol := by
  constructor
  · intro r hr
    rcases runChainGo_firstTol n tol oras tol r hr with h | h <;> exact h
  · intro o
    rw [submittedTols, List.range_succ_eq_map, List.map_cons, List.headD_cons]
    norm_num

theorem claim_C7_witness :
    runStep 1 (1 / 100) OGood ∈ runChain 1 (1 / 100) [OGood] ∧
      (runStep 1 (1 / 100) OGood).firstTol = 1 / 100 :=
  ⟨by simp [runChain, runChainGo],
   (claim_C7 1 (1 / 100) [OGood]).1 _ (by simp [runChain, runChainGo])⟩

theorem test_eq_true_iff (n : ℕ) (x : List ℚ) :
    test n x = true ↔
      x.length = n * n ∧ ∀ s ∈ rowSums n x, |s - 1| ≤ 1 / 100000000 + 1 / 1000000 := by
  by_cases hl : x.length = n * n
  · simp [test, hl, isclose, List.all_eq_true, abs_one]
  · simp [test, hl]

theorem reject_eq_false_iff (n : ℕ) (P : LPResult) :
    reject n P = false ↔ acceptSpec n P := by
  simp only [reject, acceptSpec, Bool.or_eq_false_iff, bne_eq_false_iff_eq,
    decide_eq_false_iff_not, not_lt, List.any_eq_false, test_eq_true_iff,
    Bool.not_eq_false', gt_iff_lt]
  constructor
  · rintro ⟨⟨⟨⟨⟨h1, h2⟩, h3⟩, h4⟩, h5⟩, h6, h7⟩
    exact ⟨h1, h2, h3, fun v hv => ⟨not_lt.mp (by simpa using h4 v hv),
      not_lt.mp (by simpa using h5 v hv)⟩, h6, h7⟩
  · rintro ⟨h1, h2, h3, h45, h6, h7⟩
    exact ⟨⟨⟨⟨⟨h1, h2⟩, h3⟩, fun v hv => by simp [not_lt, (h45 v hv).1]⟩,
      fun v hv => by simp [not_lt, (h45 v hv).2]⟩, h6, h7⟩

/-- Claim C1: the escalation loop accepts a solver result, storing its matrix
and leaving the step flagged valid with no further solves, exactly when the
solver status is success, the objective lies in 0..1, every solution component
lies in 0..1 with the vector of length n squared, and every reshaped row sums
to 1 within the isclose tolerance; consequently every accepted matrix is row
stochastic within that tolerance with all entries in 0..1. -/
theorem claim_C1 (n : ℕ) (tol : ℚ) (o : StepOracle) (_h : 0 < tol)
    (hnan : o.firstNan = false) : sC1 n tol o := by
  have hrun : runStep n tol o =
      ⟨if reject n (o.res (stopIdx n tol o)) then -1 else 0,
       (o.res (stopIdx n tol o)).x, tol, stopIdx n tol o + 1⟩ := by
    simp [runStep, hnan]
  have hflag : (runStep n tol o).flag = 0 ↔ acceptSpec n (o.res (stopIdx n tol o)) := by
    rw [hrun]
    cases hr : reject n (o.res (stopIdx n tol o)) with
    | false => simpa using (reject_eq_false_iff n _).mp hr
    | true =>
      simp only [if_true]
      constructor
      · intro hc; exact absurd hc (by norm_num)
      · intro hc
        exact absurd ((reject_eq_false_iff n _).mpr hc) (by simp [hr])
  refine ⟨hflag, by rw [hrun], by rw [hrun], ?_⟩
  intro h0
  have hacc := hflag.mp h0
  rw [hrun]
  exact ⟨hacc.2.2.2.2.2, hacc.2.2.2.1⟩

theorem claim_C1_witness :
    (0 : ℚ) < 1 / 100 ∧ OGood.firstNan = false ∧ sC1 1 (1 / 100) OGood :=
  ⟨by norm_num, rfl, claim_C1 1 (1 / 100) OGood (by norm_num) rfl⟩

theorem nonzeroIdx_pairwise (v : List ℤ) : (nonzeroIdx v).Pairwise (· < ·) :=
  (List.pairwise_lt_range v.length).filter _

theorem mem_nonzeroIdx (v : List ℤ) (i : ℕ) :
    i ∈ nonzeroIdx v ↔ i < v.length ∧ v.getD i 0 ≠ 0 := by
  simp [nonzeroIdx, List.mem_filter, List.mem_range, and_comm]

theorem mem_failureIdx (flag : List ℤ) (i : ℕ) :
    i ∈ failureIdx flag ↔ i < flag.length ∧ flag.getD i 0 ≠ 0 :=
  mem_nonzeroIdx flag i

theorem getD_map_addone (flag : List ℤ) (i : ℕ) (hi : i < flag.length) :
    (flag.map (· + 1)).getD i 0 = flag.getD i 0 + 1 := by
  rw [List.getD_eq_getElem _ _ (by simpa using hi), List.getD_eq_getElem _ _ hi,
    List.getElem_map]

theorem mem_successIdx (flag : List ℤ) (i : ℕ) :
    i ∈ successIdx flag ↔ i < flag.length ∧ flag.getD i 0 + 1 ≠ 0 := by
  rw [successIdx, mem_nonzeroIdx, List.length_map]
  constructor
  · rintro ⟨h1, h2⟩
    exact ⟨h1, by rwa [getD_map_addone flag i h1] at h2⟩
  · rintro ⟨h1, h2⟩
    exact ⟨h1, by rwa [getD_map_addone flag i h1]⟩

theorem mem_successIdx_01 (flag : List ℤ) (h01 : ∀ v ∈ flag, v = 0 ∨ v = -1) (i : ℕ) :
    i ∈ successIdx flag ↔ i < flag.length ∧ flag.getD i 0 = 0 := by
  rw [mem_successIdx]
  constructor
  · rintro ⟨h1, h2⟩
    refine ⟨h1, ?_⟩
    have hm := h01 (flag.getD i 0)
      (by rw [List.getD_eq_getElem _ _ h1]; exact List.getElem_mem h1)
    rcases hm with h | h
    · exact h
    · rw [h] at h2; norm_num at h2
  · rintro ⟨h1, h2⟩
    rw [h2]
    norm_num
    exact h1

theorem mem_failureIdx_01 (flag : List ℤ) (h01 : ∀ v ∈ flag, v = 0 ∨ v = -1) (i : ℕ) :
    i ∈ failureIdx flag ↔ i < flag.length ∧ flag.getD i 0 = -1 := by
  rw [mem_failureIdx]
  constructor
  · rintro ⟨h1, h2⟩
    refine ⟨h1, ?_⟩
    have hm := h01 (flag.getD i 0)
      (by rw [List.getD_eq_getElem _ _ h1]; exact List.getElem_mem h1)
    rcases hm with h | h
    · exact absurd h h2
    · exact h
  · rintro ⟨h1, h2⟩
    rw [h2]
    norm_num
    exact h1

theorem max?_spec {l : List ℕ} {v : ℕ} :
    l.max? = some v ↔ v ∈ l ∧ ∀ b ∈ l, b ≤ v :=
  List.max?_eq_some_iff (fun a => le_refl a) max_choice (fun _ _ _ => max_le_iff)

theorem min?_spec {l : List ℕ} {v : ℕ} :
    l.min? = some v ↔ v ∈ l ∧ ∀ b ∈ l, v ≤ b :=
  List.min?_eq_some_iff (fun a => le_refl a) min_choice (fun _ _ _ => le_min_iff)

theorem maxBelow_eq_some_iff {S : List ℕ} {f v : ℕ} :
    maxBelow S f = some v ↔ (v ∈ S ∧ v < f) ∧ ∀ s ∈ S, s < f → s ≤ v := by
  rw [maxBelow, max?_spec]
  simp only [List.mem_filter, decide_eq_true_eq]
  tauto

theorem minAbove_eq_some_iff {S : List ℕ} {f v : ℕ} :
    minAbove S f = some v ↔ (v ∈ S ∧ f < v) ∧ ∀ s ∈ S, f < s → v ≤ s := by
  rw [minAbove, min?_spec]
  simp only [List.mem_filter, decide_eq_true_eq]
  tauto

theorem maxBelow_isSome_iff {S : List ℕ} {f : ℕ} :
    (maxBelow S f).isSome = true ↔ ∃ s ∈ S, s < f := by
  rw [maxBelow, Option.isSome_iff_ne_none, Ne, List.max?_eq_none_iff]
  simp [List.eq_nil_iff_forall_not_mem, List.mem_filter]

theorem minAbove_isSome_iff {S : List ℕ} {f : ℕ} :
    (minAbove S f).isSome = true ↔ ∃ s ∈ S, f < s := by
  rw [minAbove, Option.isSome_iff_ne_none, Ne, List.min?_eq_none_iff]
  simp [List.eq_nil_iff_forall_not_mem, List.mem_filter]

theorem scanAbort_eq (sel : ℕ → Option ℕ) :
    ∀ l : List ℕ, l.Pairwise (fun a b => (sel b).isSome = true → (sel a).isSome = true) →
      scanAbort sel l = (l.filter fun a => (sel a).isSome).map fun a => (sel a).getD 0 := by
  intro l
  induction l with
  | nil => intro _; rfl
  | cons a l ih =>
    intro hp
    rcases List.pairwise_cons.mp hp with ⟨ha, hl⟩
    cases hsel : sel a with
    | some v =>
      simp only [scanAbort, hsel, List.filter_cons, Option.isSome_some, if_true,
        List.map_cons, Option.getD_some, ih hl]
    | none =>
      have hfilter : (l.filter fun a2 => (sel a2).isSome) = [] := by
        rw [List.filter_eq_nil_iff]
        intro b hb hsb
        have hcontr := ha b hb hsb
        rw [hsel] at hcontr
        simp at hcontr
      simp only [scanAbort, hsel, List.filter_cons, Option.isSome_none,
        Bool.false_eq_true, if_false, hfilter, List.map_nil]

theorem eq_filter_not_append_filter (p : ℕ → Bool) :
    ∀ l : List ℕ, l.Pairwise (fun a b => p a = true → p b = true) →
      l = (l.filter fun a => !(p a)) ++ l.filter p := by
  intro l
  induction l with
  | nil => intro _; rfl
  | cons a l ih =>
    intro hp
    rcases List.pairwise_cons.mp hp with ⟨ha, hl⟩
    cases hpa : p a with
    | true =>
      have h1 : (l.filter fun a2 => !(p a2)) = [] := by
        rw [List.filter_eq_nil_iff]
        intro b hb
        simp [ha b hb hpa]
      have h2 : l.filter p = l := List.filter_eq_self.mpr fun b hb => ha b hb hpa
      simp only [List.filter_cons, hpa, Bool.not_true, Bool.false_eq_true, if_false,
        if_true, h1, h2, List.nil_append]
    | false =>
      have hrec := ih hl
      simp only [List.filter_cons, hpa, Bool.not_false, if_true, Bool.false_eq_true,
        if_false, List.cons_append]
      exact congrArg (a :: ·) hrec

theorem getD_rank_of_sorted {l : List ℕ} (hs : l.Pairwise (· < ·)) {i : ℕ}
    (hi : i ∈ l) (d : ℕ) :
    l.getD (l.filter fun a => decide (a < i)).length d = i := by
  induction l with
  | nil => cases hi
  | cons b l ih =>
    rcases List.pairwise_cons.mp hs with ⟨hb, hl⟩
    rcases List.mem_cons.mp hi with rfl | hi2
    · have hnil : ((i :: l).filter fun a => decide (a < i)) = [] := by
        rw [List.filter_eq_nil_iff]
        intro a ha
        rcases List.mem_cons.mp ha with rfl | ha2
        · simp
        · simp [Nat.not_lt.mpr (le_of_lt (hb a ha2))]
      rw [hnil]
      simp
    · have hbi : b < i := hb i hi2
      have hcons : ((b :: l).filter fun a => decide (a < i)) =
          b :: l.filter fun a => decide (a < i) := by
        simp [List.filter_cons, hbi]
      rw [hcons, List.length_cons, List.getD_cons_succ]
      exact ih hl hi2

theorem length_filter_lt_of_mem {l : List ℕ} {i : ℕ} (hi : i ∈ l) :
    (l.filter fun a => decide (a < i)).length < l.length :=
  List.length_filter_lt_length_iff_exists.mpr ⟨i, hi, by simp⟩

theorem length_maskedAssign (arr vals : List ℤ) :
    (maskedAssign arr vals).length = arr.length := by
  simp [maskedAssign]

theorem maskedAssign_getD (arr vals : List ℤ) (i : ℕ) (hi : i < arr.length) :
    (maskedAssign arr vals).getD i 0 =
      if arr.getD i 0 > 0 then
        vals.getD ((List.range i).filter fun i2 => decide (arr.getD i2 0 > 0)).length
          (arr.getD i 0)
      else arr.getD i 0 := by
  rw [maskedAssign, List.getD_eq_getElem _ _ (by simpa using hi), List.getElem_map,
    List.getElem_range]

theorem length_replInit (m : ℕ) (F : List ℕ) : (replInit m F).length = m := by
  simp [replInit]

theorem replInit_getD (m : ℕ) (F : List ℕ) (i : ℕ) (hi : i < m) :
    (replInit m F).getD i 0 = if i ∈ F then 1 else -1 := by
  rw [replInit, List.getD_eq_getElem _ _ (by simpa using hi), List.getElem_map,
    List.getElem_range]

theorem filter_range_decomp (m i : ℕ) (him : i ≤ m) (p : ℕ → Bool) :
    (List.range m).filter (fun a => p a && decide (a < i)) = (List.range i).filter p := by
  have hr : List.range m = List.range i ++ List.range' i (m - i) := by
    rw [List.range_eq_range', List.range_eq_range']
    have happ := List.range'_append 0 i (m - i) 1
    rw [Nat.zero_add, Nat.one_mul] at happ
    have hm : m = m - i + i := by omega
    nth_rewrite 1 [hm]
    exact happ.symm
  rw [hr, List.filter_append]
  have h2 : (List.range' i (m - i)).filter (fun a => p a && decide (a < i)) = [] := by
    rw [List.filter_eq_nil_iff]
    intro a ha
    have hia : i ≤ a := (List.mem_range'_1.mp ha).1
    simp [Nat.not_lt.mpr hia]
  rw [h2, List.append_nil]
  apply List.filter_congr
  intro a ha
  have hai : a < i := List.mem_range.mp ha
  simp [hai]

theorem maxBelow_isSome_mono (S : List ℕ) {a b : ℕ} (hab : a ≤ b)
    (h : (maxBelow S a).isSome = true) : (maxBelow S b).isSome = true := by
  rw [maxBelow_isSome_iff] at h ⊢
  obtain ⟨s, hs, hsa⟩ := h
  exact ⟨s, hs, lt_of_lt_of_le hsa hab⟩

theorem minAbove_isSome_anti (S : List ℕ) {a b : ℕ} (hab : a ≤ b)
    (h : (minAbove S b).isSome = true) : (minAbove S a).isSome = true := by
  rw [minAbove_isSome_iff] at h ⊢
  obtain ⟨s, hs, hsb⟩ := h
  exact ⟨s, hs, lt_of_le_of_lt hab hsb⟩

theorem getD_append_left {α : Type} (as bs : List α) (i : ℕ) (d : α)
    (h : i < as.length) : (as ++ bs).getD i d = as.getD i d := by
  rw [List.getD_eq_getElem _ _ (by rw [List.length_append]; omega),
    List.getElem_append_left h, List.getD_eq_getElem _ _ h]

theorem getD_append_right {α : Type} (as bs : List α) (i : ℕ) (d : α)
    (h : as.length ≤ i) : (as ++ bs).getD i d = bs.getD (i - as.length) d := by
  by_cases h2 : i < (as ++ bs).length
  · rw [List.getD_eq_getElem _ _ h2, List.getElem_append_right h,
      List.getD_eq_getElem _ _ (by rw [List.length_append] at h2; omega)]
  · rw [List.length_append] at h2
    rw [List.getD_eq_getElem?_getD, List.getD_eq_getElem?_getD,
      List.getElem?_eq_none (by rw [List.length_append]; omega),
      List.getElem?_eq_none (by omega)]

theorem getD_map_of_lt {α β : Type} (f : α → β) (l : List α) (i : ℕ) (d : β) (e : α)
    (h : i < l.length) : (l.map f).getD i d = f (l.getD i e) := by
  rw [List.getD_eq_getElem _ _ (by rw [List.length_map]; exact h), List.getElem_map,
    List.getD_eq_getElem _ _ h]

theorem getD_replicate_of_lt {α : Type} (n i : ℕ) (a d : α) (h : i < n) :
    (List.replicate n a).getD i d = a := by
  rw [List.getD_eq_getElem _ _ (by rw [List.length_replicate]; exact h),
    List.getElem_replicate]

theorem rank_eq (flag : List ℤ) (i : ℕ) (hi : i < flag.length) :
    ((List.range i).filter fun i2 =>
        decide ((replInit flag.length (failureIdx flag)).getD i2 0 > 0)).length =
      ((failureIdx flag).filter fun a => decide (a < i)).length := by
  have h1 : ((List.range i).filter fun i2 =>
      decide ((replInit flag.length (failureIdx flag)).getD i2 0 > 0)) =
      (List.range i).filter fun i2 => flag.getD i2 0 != 0 := by
    apply List.filter_congr
    intro a ha
    have haim : a < flag.length := lt_of_lt_of_le (List.mem_range.mp ha) (le_of_lt hi)
    rw [replInit_getD _ _ a haim]
    by_cases hmem : a ∈ failureIdx flag
    · have hb : (flag.getD a 0 != 0) = true := by
        have hne : flag.getD a 0 ≠ 0 := ((mem_failureIdx flag a).mp hmem).2
        simpa [bne_iff_ne] using hne
      simp only [hmem, if_true, hb]
      decide
    · have hz : flag.getD a 0 = 0 := by
        by_contra hc
        exact hmem ((mem_failureIdx flag a).mpr ⟨haim, hc⟩)
      have hb : (flag.getD a 0 != 0) = false := by rw [hz]; decide
      simp only [hmem, if_false, hb]
      decide
  have h2 : ((failureIdx flag).filter fun a => decide (a < i)) =
      (List.range i).filter fun i2 => flag.getD i2 0 != 0 := by
    rw [failureIdx, nonzeroIdx, List.filter_filter]
    rw [List.filter_congr fun a _ => Bool.and_comm (decide (a < i)) (flag.getD a 0 != 0)]
    exact filter_range_decomp flag.length i (le_of_lt hi) _
  rw [h1, h2]

theorem replMin_getD (flag : List ℤ) (i : ℕ) (hi : i < flag.length) :
    (replMin flag).getD i 0 =
      if i ∈ failureIdx flag then
        (maxBelow (successIdx flag) i).elim (-1) (fun v => (v : ℤ))
      else -1 := by
  have hFpair : (failureIdx flag).Pairwise (· < ·) := nonzeroIdx_pairwise flag
  have hmono : ∀ a b : ℕ, a ≤ b →
      (maxBelow (successIdx flag) a).isSome = true →
        (maxBelow (successIdx flag) b).isSome = true :=
    fun a b hab h => maxBelow_isSome_mono _ hab h
  have hpair_rev : (failureIdx flag).reverse.Pairwise
      (fun a b => (maxBelow (successIdx flag) b).isSome = true →
        (maxBelow (successIdx flag) a).isSome = true) := by
    rw [List.pairwise_reverse]
    exact hFpair.imp fun hab h => hmono _ _ (le_of_lt hab) h
  have hscan : scanAbort (maxBelow (successIdx flag)) (failureIdx flag).reverse =
      (((failureIdx flag).filter fun a => (maxBelow (successIdx flag) a).isSome).map
        fun a => (maxBelow (successIdx flag) a).getD 0).reverse := by
    rw [scanAbort_eq _ _ hpair_rev, List.filter_reverse, List.map_reverse]
  have hBpair : ((failureIdx flag).filter
      fun a => (maxBelow (successIdx flag) a).isSome).Pairwise (· < ·) :=
    hFpair.filter _
  have hmv : minvecSorted flag =
      ((failureIdx flag).filter fun a => (maxBelow (successIdx flag) a).isSome).map
        fun a => (maxBelow (successIdx flag) a).getD 0 := by
    rw [minvecSorted, hscan]
    apply List.eq_of_perm_of_sorted (r := (· ≤ ·))
    · exact (List.perm_insertionSort _ _).trans (List.reverse_perm _)
    · exact List.sorted_insertionSort _ _
    · show List.Pairwise _ _
      rw [List.pairwise_map]
      refine hBpair.imp_of_mem ?_
      intro a b ha hb hab
      have hsa : (maxBelow (successIdx flag) a).isSome = true := (List.mem_filter.mp ha).2
      have hsb : (maxBelow (successIdx flag) b).isSome = true := (List.mem_filter.mp hb).2
      obtain ⟨va, hva⟩ := Option.isSome_iff_exists.mp hsa
      obtain ⟨vb, hvb⟩ := Option.isSome_iff_exists.mp hsb
      rw [hva, hvb]
      simp only [Option.getD_some]
      have h1 := maxBelow_eq_some_iff.mp hva
      have h2 := maxBelow_eq_some_iff.mp hvb
      exact h2.2 va h1.1.1 (lt_trans h1.1.2 hab)
  have hdecomp : failureIdx flag =
      ((failureIdx flag).filter fun a => !((maxBelow (successIdx flag) a).isSome)) ++
        ((failureIdx flag).filter fun a => (maxBelow (successIdx flag) a).isSome) :=
    eq_filter_not_append_filter _ _ (hFpair.imp fun hab h => hmono _ _ (le_of_lt hab) h)
  have hFlen : (failureIdx flag).length =
      ((failureIdx flag).filter fun a => !((maxBelow (successIdx flag) a).isSome)).length +
        ((failureIdx flag).filter fun a => (maxBelow (successIdx flag) a).isSome).length := by
    conv_lhs => rw [hdecomp]
    rw [List.length_append]
  have hpad : paddedMin flag = List.replicate
      (((failureIdx flag).filter fun a => !((maxBelow (successIdx flag) a).isSome)).length)
        (-1 : ℤ) ++
      (((failureIdx flag).filter fun a => (maxBelow (successIdx flag) a).isSome).map
        fun a => Int.ofNat ((maxBelow (successIdx flag) a).getD 0)) := by
    rw [paddedMin, hmv, List.length_map]
    have hcnt : (failureIdx flag).length -
        ((failureIdx flag).filter fun a => (maxBelow (successIdx flag) a).isSome).length =
        ((failureIdx flag).filter fun a => !((maxBelow (successIdx flag) a).isSome)).length := by
      omega
    rw [hcnt, List.map_map]
    rfl
  have hmask : (replMin flag).getD i 0 =
      if (replInit flag.length (failureIdx flag)).getD i 0 > 0 then
        (paddedMin flag).getD
          ((List.range i).filter fun i2 =>
            decide ((replInit flag.length (failureIdx flag)).getD i2 0 > 0)).length
          ((replInit flag.length (failureIdx flag)).getD i 0)
      else (replInit flag.length (failureIdx flag)).getD i 0 := by
    rw [replMin]
    exact maskedAssign_getD _ _ i (by rw [length_replInit]; exact hi)
  rw [hmask, replInit_getD _ _ i hi]
  by_cases hmem : i ∈ failureIdx flag
  · simp only [hmem, if_true]
    rw [if_pos (by norm_num : (1 : ℤ) > 0), rank_eq flag i hi]
    rcases List.mem_append.mp (hdecomp ▸ hmem) with hiA | hiB
    · have hBnil : (((failureIdx flag).filter
          fun a => (maxBelow (successIdx flag) a).isSome).filter
            fun a => decide (a < i)) = [] := by
        rw [List.filter_eq_nil_iff]
        intro b hbB hblt
        have hsb : (maxBelow (successIdx flag) b).isSome = true := (List.mem_filter.mp hbB).2
        have hnsi : (maxBelow (successIdx flag) i).isSome = false := by
          have hm := (List.mem_filter.mp hiA).2
          simpa using hm
        have hblti : b < i := by simpa using hblt
        have hcontr := hmono b i (le_of_lt hblti) hsb
        rw [hnsi] at hcontr
        cases hcontr
      have hr : (((failureIdx flag).filter fun a => decide (a < i))).length =
          (((failureIdx flag).filter
            fun a => !((maxBelow (successIdx flag) a).isSome)).filter
              fun a => decide (a < i)).length := by
        conv_lhs => rw [hdecomp]
        rw [List.filter_append, hBnil, List.append_nil]
      have hrlt : (((failureIdx flag).filter
          fun a => !((maxBelow (successIdx flag) a).isSome)).filter
            fun a => decide (a < i)).length <
          ((failureIdx flag).filter
            fun a => !((maxBelow (successIdx flag) a).isSome)).length :=
        length_filter_lt_of_mem hiA
      rw [hr, hpad, getD_append_left _ _ _ _ (by rw [List.length_replicate]; exact hrlt),
        getD_replicate_of_lt _ _ _ _ hrlt]
      have hnone : maxBelow (successIdx flag) i = none := by
        cases hcase : maxBelow (successIdx flag) i with
        | none => rfl
        | some v =>
          have hm := (List.mem_filter.mp hiA).2
          rw [hcase] at hm
          simp at hm
      rw [hnone]
      rfl
    · have hsi : (maxBelow (successIdx flag) i).isSome = true := (List.mem_filter.mp hiB).2
      have hAfull : (((failureIdx flag).filter
          fun a => !((maxBelow (successIdx flag) a).isSome)).filter
            fun a => decide (a < i)) =
          ((failureIdx flag).filter
            fun a => !((maxBelow (successIdx flag) a).isSome)) := by
        rw [List.filter_eq_self]
        intro a haA
        have hnsa : (maxBelow (successIdx flag) a).isSome = false := by
          have hm := (List.mem_filter.mp haA).2
          simpa using hm
        rcases Nat.lt_trichotomy a i with h | h | h
        · simpa using h
        · exfalso; rw [h, hsi] at hnsa; cases hnsa
        · exfalso
          have hcontr := hmono i a (le_of_lt h) hsi
          rw [hnsa] at hcontr
          cases hcontr
      have hr : (((failureIdx flag).filter fun a => decide (a < i))).length =
          ((failureIdx flag).filter
            fun a => !((maxBelow (successIdx flag) a).isSome)).length +
          (((failureIdx flag).filter
            fun a => (maxBelow (successIdx flag) a).isSome).filter
              fun a => decide (a < i)).length := by
        conv_lhs => rw [hdecomp]
        rw [List.filter_append, List.length_append, hAfull]
      have hrBlt : (((failureIdx flag).filter
          fun a => (maxBelow (successIdx flag) a).isSome).filter
            fun a => decide (a < i)).length <
          ((failureIdx flag).filter
            fun a => (maxBelow (successIdx flag) a).isSome).length :=
        length_filter_lt_of_mem hiB
      rw [hr, hpad, getD_append_right _ _ _ _ (by rw [List.length_replicate]; omega),
        List.length_replicate]
      have hsub : ((failureIdx flag).filter
            fun a => !((maxBelow (successIdx flag) a).isSome)).length +
          (((failureIdx flag).filter
            fun a => (maxBelow (successIdx flag) a).isSome).filter
              fun a => decide (a < i)).length -
          ((failureIdx flag).filter
            fun a => !((maxBelow (successIdx flag) a).isSome)).length =
          (((failureIdx flag).filter
            fun a => (maxBelow (successIdx flag) a).isSome).filter
              fun a => decide (a < i)).length := by omega
      rw [hsub, getD_map_of_lt _ _ _ _ 0 hrBlt, getD_rank_of_sorted hBpair hiB 0]
      obtain ⟨v, hv⟩ := Option.isSome_iff_exists.mp hsi
      rw [hv]
      rfl
  · simp only [hmem, if_false]
    rw [if_neg (by norm_num : ¬ ((-1 : ℤ) > 0))]

theorem replMax_getD (flag : List ℤ) (i : ℕ) (hi : i < flag.length) :
    (replMax flag).getD i 0 =
      if i ∈ failureIdx flag then
        (minAbove (successIdx flag) i).elim (-1) (fun v => (v : ℤ))
      else -1 := by
  have hFpair : (failureIdx flag).Pairwise (· < ·) := nonzeroIdx_pairwise flag
  have hanti : ∀ a b : ℕ, a ≤ b →
      (minAbove (successIdx flag) b).isSome = true →
        (minAbove (successIdx flag) a).isSome = true :=
    fun a b hab h => minAbove_isSome_anti _ hab h
  have hpair : (failureIdx flag).Pairwise
      (fun a b => (minAbove (successIdx flag) b).isSome = true →
        (minAbove (successIdx flag) a).isSome = true) :=
    hFpair.imp fun hab h => hanti _ _ (le_of_lt hab) h
  have hmv : maxvecList flag =
      ((failureIdx flag).filter fun a => (minAbove (successIdx flag) a).isSome).map
        fun a => (minAbove (successIdx flag) a).getD 0 := by
    rw [maxvecList, scanAbort_eq _ _ hpair]
  have hBpair : ((failureIdx flag).filter
      fun a => (minAbove (successIdx flag) a).isSome).Pairwise (· < ·) :=
    hFpair.filter _
  have hdecomp0 : failureIdx flag =
      ((failureIdx flag).filter fun a => !(!((minAbove (successIdx flag) a).isSome))) ++
        ((failureIdx flag).filter fun a => !((minAbove (successIdx flag) a).isSome)) :=
    eq_filter_not_append_filter _ _ (by
      refine hFpair.imp ?_
      intro a b hab hna
      rw [Bool.not_eq_true'] at hna ⊢
      by_contra hc
      rw [Bool.not_eq_false] at hc
      have := hanti a b (le_of_lt hab) hc
      rw [hna] at this
      cases this)
  have hdecomp : failureIdx flag =
      ((failureIdx flag).filter fun a => (minAbove (successIdx flag) a).isSome) ++
        ((failureIdx flag).filter fun a => !((minAbove (successIdx flag) a).isSome)) := by
    have hcongr : ((failureIdx flag).filter
        fun a => !(!((minAbove (successIdx flag) a).isSome))) =
        ((failureIdx flag).filter fun a => (minAbove (successIdx flag) a).isSome) :=
      List.filter_congr fun a _ => Bool.not_not _
    rw [← hcongr]
    exact hdecomp0
  have hFlen : (failureIdx flag).length =
      ((failureIdx flag).filter fun a => (minAbove (successIdx flag) a).isSome).length +
        ((failureIdx flag).filter fun a => !((minAbove (successIdx flag) a).isSome)).length := by
    conv_lhs => rw [hdecomp]
    rw [List.length_append]
  have hpad : paddedMax flag =
      (((failureIdx flag).filter fun a => (minAbove (successIdx flag) a).isSome).map
        fun a => Int.ofNat ((minAbove (successIdx flag) a).getD 0)) ++
      List.replicate
        (((failureIdx flag).filter fun a => !((minAbove (successIdx flag) a).isSome)).length)
        (-1 : ℤ) := by
    rw [paddedMax, hmv, List.length_map]
    have hcnt : (failureIdx flag).length -
        ((failureIdx flag).filter fun a => (minAbove (successIdx flag) a).isSome).length =
        ((failureIdx flag).filter fun a => !((minAbove (successIdx flag) a).isSome)).length := by
      omega
    rw [hcnt, List.map_map]
    rfl
  have hmask : (replMax flag).getD i 0 =
      if (replInit flag.length (failureIdx flag)).getD i 0 > 0 then
        (paddedMax flag).getD
          ((List.range i).filter fun i2 =>
            decide ((replInit flag.length (failureIdx flag)).getD i2 0 > 0)).length
          ((replInit flag.length (failureIdx flag)).getD i 0)
      else (replInit flag.length (failureIdx flag)).getD i 0 := by
    rw [replMax]
    exact maskedAssign_getD _ _ i (by rw [length_replInit]; exact hi)
  rw [hmask, replInit_getD _ _ i hi]
  by_cases hmem : i ∈ failureIdx flag
  · simp only [hmem, if_true]
    rw [if_pos (by norm_num : (1 : ℤ) > 0), rank_eq flag i hi]
    rcases List.mem_append.mp (hdecomp ▸ hmem) with hiB | hiA
    · have hsi : (minAbove (successIdx flag) i).isSome = true := (List.mem_filter.mp hiB).2
      have hAnil : (((failureIdx flag).filter
          fun a => !((minAbove (successIdx flag) a).isSome)).filter
            fun a => decide (a < i)) = [] := by
        rw [List.filter_eq_nil_iff]
        intro b hbA hblt
        have hnsb : (minAbove (successIdx flag) b).isSome = false := by
          have hm := (List.mem_filter.mp hbA).2
          simpa using hm
        have hblti : b < i := by simpa using hblt
        have hcontr := hanti b i (le_of_lt hblti) hsi
        rw [hnsb] at hcontr
        cases hcontr
      have hr : (((failureIdx flag).filter fun a => decide (a < i))).length =
          (((failureIdx flag).filter
            fun a => (minAbove (successIdx flag) a).isSome).filter
              fun a => decide (a < i)).length := by
        conv_lhs => rw [hdecomp]
        rw [List.filter_append, hAnil, List.append_nil]
      have hrBlt : (((failureIdx flag).filter
          fun a => (minAbove (successIdx flag) a).isSome).filter
            fun a => decide (a < i)).length <
          ((failureIdx flag).filter
            fun a => (minAbove (successIdx flag) a).isSome).length :=
        length_filter_lt_of_mem hiB
      rw [hr, hpad, getD_append_left _ _ _ _ (by rw [List.length_map]; exact hrBlt),
        getD_map_of_lt _ _ _ _ 0 hrBlt, getD_rank_of_sorted hBpair hiB 0]
      obtain ⟨v, hv⟩ := Option.isSome_iff_exists.mp hsi
      rw [hv]
      rfl
    · have hnsi : (minAbove (successIdx flag) i).isSome = false := by
        have hm := (List.mem_filter.mp hiA).2
        simpa using hm
      have hBfull : (((failureIdx flag).filter
          fun a => (minAbove (successIdx flag) a).isSome).filter
            fun a => decide (a < i)) =
          ((failureIdx flag).filter
            fun a => (minAbove (successIdx flag) a).isSome) := by
        rw [List.filter_eq_self]
        intro b hbB
        have hsb : (minAbove (successIdx flag) b).isSome = true := (List.mem_filter.mp hbB).2
        rcases Nat.lt_trichotomy b i with h | h | h
        · simpa using h
        · exfalso; rw [h, hnsi] at hsb; cases hsb
        · exfalso
          have hcontr := hanti i b (le_of_lt h) hsb
          rw [hnsi] at hcontr
          cases hcontr
      have hr : (((failureIdx flag).filter fun a => decide (a < i))).length =
          ((failureIdx flag).filter
            fun a => (minAbove (successIdx flag) a).isSome).length +
          (((failureIdx flag).filter
            fun a => !((minAbove (successIdx flag) a).isSome)).filter
              fun a => decide (a < i)).length := by
        conv_lhs => rw [hdecomp]
        rw [List.filter_append, List.length_append, hBfull]
      have hrAlt : (((failureIdx flag).filter
          fun a => !((minAbove (successIdx flag) a).isSome)).filter
            fun a => decide (a < i)).length <
          ((failureIdx flag).filter
            fun a => !((minAbove (successIdx flag) a).isSome)).length :=
        length_filter_lt_of_mem hiA
      rw [hr, hpad, getD_append_right _ _ _ _ (by rw [List.length_map]; omega),
        List.length_map]
      have hsub : ((failureIdx flag).filter
            fun a => (minAbove (successIdx flag) a).isSome).length +
          (((failureIdx flag).filter
            fun a => !((minAbove (successIdx flag) a).isSome)).filter
              fun a => decide (a < i)).length -
          ((failureIdx flag).filter
            fun a => (minAbove (successIdx flag) a).isSome).length =
          (((failureIdx flag).filter
            fun a => !((minAbove (successIdx flag) a).isSome)).filter
              fun a => decide (a < i)).length := by omega
      rw [hsub, getD_replicate_of_lt _ _ _ _ hrAlt]
      have hnone : minAbove (successIdx flag) i = none := by
        cases hcase : minAbove (successIdx flag) i with
        | none => rfl
        | some v => rw [hcase] at hnsi; simp at hnsi
      rw [hnone]
      rfl
  · simp only [hmem, if_false]
    rw [if_neg (by norm_num : ¬ ((-1 : ℤ) > 0))]

theorem length_replMin (flag : List ℤ) : (replMin flag).length = flag.length := by
  rw [replMin, length_maskedAssign, length_replInit]

theorem length_replMax (flag : List ℤ) : (replMax flag).length = flag.length := by
  rw [replMax, length_maskedAssign, length_replInit]

theorem length_succVec (flag : List ℤ) : (succVec flag).length = flag.length := by
  rw [succVec, List.length_zipWith, length_replMin, length_replMax, min_self]

theorem succVec_getD (flag : List ℤ) (i : ℕ) (hi : i < flag.length) :
    (succVec flag).getD i 0 =
      if i ∈ failureIdx flag ∧ (∃ s ∈ successIdx flag, s < i) ∧
          (∃ s ∈ successIdx flag, i < s) then 1 else 0 := by
  have hz : (succVec flag).getD i 0 =
      if (replMin flag).getD i 0 > -1 ∧ (replMin flag).getD i 0 < (replMax flag).getD i 0
      then (1 : ℤ) else 0 := by
    have h1 : i < (List.zipWith (fun a b => if a > -1 ∧ a < b then (1 : ℤ) else 0)
        (replMin flag) (replMax flag)).length := by
      rw [List.length_zipWith, length_replMin, length_replMax, min_self]
      exact hi
    rw [succVec, List.getD_eq_getElem _ _ h1, List.getElem_zipWith,
      List.getD_eq_getElem _ _ (by rw [length_replMin]; exact hi),
      List.getD_eq_getElem _ _ (by rw [length_replMax]; exact hi)]
  rw [hz, replMin_getD flag i hi, replMax_getD flag i hi]
  by_cases hmem : i ∈ failureIdx flag
  · rw [if_pos hmem, if_pos hmem]
    cases hmb : maxBelow (successIdx flag) i with
    | none =>
      have hnb : ¬ ∃ s ∈ successIdx flag, s < i := by
        rw [← maxBelow_isSome_iff, hmb]
        simp
      have he : (Option.elim (none : Option ℕ) (-1 : ℤ) fun v => (v : ℤ)) = -1 := rfl
      rw [he, if_neg (by rintro ⟨hgt, -⟩; exact lt_irrefl _ hgt),
        if_neg (by rintro ⟨-, hb, -⟩; exact hnb hb)]
    | some v =>
      have hbel : ∃ s ∈ successIdx flag, s < i := by
        rw [← maxBelow_isSome_iff, hmb]
        simp
      have he : (Option.elim (some v) (-1 : ℤ) fun u => (u : ℤ)) = (v : ℤ) := rfl
      rw [he]
      cases hma : minAbove (successIdx flag) i with
      | none =>
        have hna : ¬ ∃ s ∈ successIdx flag, i < s := by
          rw [← minAbove_isSome_iff, hma]
          simp
        have he2 : (Option.elim (none : Option ℕ) (-1 : ℤ) fun u => (u : ℤ)) = -1 := rfl
        rw [he2,
          if_neg (by
            rintro ⟨-, hlt2⟩
            have hvnn : (0 : ℤ) ≤ (v : ℤ) := Int.natCast_nonneg v
            omega),
          if_neg (by rintro ⟨-, -, hb⟩; exact hna hb)]
      | some w =>
        have hab : ∃ s ∈ successIdx flag, i < s := by
          rw [← minAbove_isSome_iff, hma]
          simp
        have hvi : v < i := (maxBelow_eq_some_iff.mp hmb).1.2
        have hiw : i < w := (minAbove_eq_some_iff.mp hma).1.2
        have he2 : (Option.elim (some w) (-1 : ℤ) fun u => (u : ℤ)) = (w : ℤ) := rfl
        rw [he2,
          if_pos (⟨lt_of_lt_of_le (by norm_num) (Int.natCast_nonneg v),
            by exact_mod_cast lt_trans hvi hiw⟩ :
              ((v : ℤ) > -1) ∧ ((v : ℤ) < (w : ℤ))),
          if_pos ⟨hmem, hbel, hab⟩]
  · rw [if_neg hmem, if_neg hmem, if_neg (by rintro ⟨hgt, -⟩; exact lt_irrefl _ hgt),
      if_neg (by rintro ⟨hf, -⟩; exact hmem hf)]

theorem windowList_pairwise (flag : List ℤ) : (windowList flag).Pairwise (· < ·) :=
  (List.pairwise_lt_range flag.length).filter _

theorem mem_windowList (flag : List ℤ) (i : ℕ) :
    i ∈ windowList flag ↔ i < flag.length ∧ i ∈ failureIdx flag ∧
      (∃ s ∈ successIdx flag, s < i) ∧ (∃ s ∈ successIdx flag, i < s) := by
  rw [windowList, List.mem_filter, List.mem_range]
  constructor
  · rintro ⟨h1, h2⟩
    refine ⟨h1, ?_⟩
    rw [succVec_getD flag i h1] at h2
    by_contra hc
    rw [if_neg hc] at h2
    simp at h2
  · rintro ⟨h1, h2⟩
    refine ⟨h1, ?_⟩
    rw [succVec_getD flag i h1, if_pos h2]
    decide

theorem headD_le_of_mem {l : List ℕ} (h : l.Pairwise (· < ·)) {x : ℕ} (hx : x ∈ l)
    (d : ℕ) : l.headD d ≤ x := by
  cases l with
  | nil => cases hx
  | cons a l =>
    rw [List.headD_cons]
    rcases List.mem_cons.mp hx with rfl | hx2
    · exact le_refl x
    · exact le_of_lt ((List.pairwise_cons.mp h).1 x hx2)

theorem le_getLastD_of_mem : ∀ l : List ℕ, l.Pairwise (· < ·) →
    ∀ x ∈ l, ∀ d : ℕ, x ≤ l.getLastD d := by
  intro l
  induction l with
  | nil => intro _ x hx; cases hx
  | cons a l ih =>
    intro h x hx d
    rcases List.pairwise_cons.mp h with ⟨ha, hl⟩
    rw [List.getLastD_cons]
    rcases List.mem_cons.mp hx with rfl | hx2
    · cases hle : l with
      | nil => exact le_refl x
      | cons c l2 =>
        subst hle
        have hc : c ∈ c :: l2 := List.mem_cons_self c l2
        exact le_trans (le_of_lt (ha c hc)) (ih hl c hc x)
    · exact ih hl x hx2 a

theorem getLastD_mem : ∀ l : List ℕ, l ≠ [] → ∀ d : ℕ, l.getLastD d ∈ l := by
  intro l
  induction l with
  | nil => intro h; exact absurd rfl h
  | cons a l ih =>
    intro _ d
    rw [List.getLastD_cons]
    cases hl : l with
    | nil => simp
    | cons c l2 =>
      subst hl
      exact List.mem_cons_of_mem a (ih (List.cons_ne_nil c l2) a)

theorem mem_restrictedFailure (flag : List ℤ) (i : ℕ) :
    i ∈ restrictedFailure flag ↔
      i ∈ failureIdx flag ∧ thLow flag ≤ (i : ℤ) ∧ (i : ℤ) ≤ thHigh flag := by
  rw [restrictedFailure, List.mem_filter]
  simp

theorem window_bounds (flag : List ℤ) {i : ℕ} (hi : i ∈ windowList flag) :
    thLow flag ≤ (i : ℤ) ∧ (i : ℤ) ≤ thHigh flag := by
  cases hw : windowList flag with
  | nil => rw [hw] at hi; cases hi
  | cons w rest =>
    rw [hw] at hi
    have hpair : (w :: rest).Pairwise (· < ·) := by
      rw [← hw]
      exact windowList_pairwise flag
    constructor
    · have hw2 : thLow flag = (w : ℤ) := by rw [thLow, hw]
      rw [hw2]
      have hle := headD_le_of_mem hpair hi 0
      rw [List.headD_cons] at hle
      exact_mod_cast hle
    · have hw2 : thHigh flag = (((w :: rest).getLastD 0 : ℕ) : ℤ) := by rw [thHigh, hw]
      rw [hw2]
      exact_mod_cast le_getLastD_of_mem (w :: rest) hpair i hi 0

theorem getD_set {α : Type} (base : List α) (p : ℕ) (v : α) (i : ℕ) (d : α) :
    (base.set p v).getD i d = if p = i ∧ i < base.length then v else base.getD i d := by
  by_cases hpi : p = i
  · subst hpi
    by_cases hlen : p < base.length
    · rw [List.getD_eq_getElem _ _ (by rw [List.length_set]; exact hlen),
        List.getElem_set_self _, if_pos ⟨rfl, hlen⟩]
    · rw [if_neg (by tauto), List.getD_eq_getElem?_getD, List.getD_eq_getElem?_getD,
        List.getElem?_eq_none (by rw [List.length_set]; omega),
        List.getElem?_eq_none (by omega)]
  · rw [if_neg (by tauto)]
    by_cases hlen : i < base.length
    · rw [List.getD_eq_getElem _ _ (by rw [List.length_set]; exact hlen),
        List.getElem_set_ne hpi, List.getD_eq_getElem _ _ hlen]
    · rw [List.getD_eq_getElem?_getD, List.getD_eq_getElem?_getD,
        List.getElem?_eq_none (by rw [List.length_set]; omega),
        List.getElem?_eq_none (by omega)]

theorem foldl_set_length (ps : List ℕ) :
    ∀ base : List ℤ, (ps.foldl (fun fl p => fl.set p 0) base).length = base.length := by
  induction ps with
  | nil => intro base; rfl
  | cons p ps ih =>
    intro base
    rw [List.foldl_cons, ih, List.length_set]

theorem foldl_set_getD (i : ℕ) (ps : List ℕ) :
    ∀ base : List ℤ, (ps.foldl (fun fl p => fl.set p 0) base).getD i 0 =
      if i ∈ ps ∧ i < base.length then 0 else base.getD i 0 := by
  induction ps with
  | nil => intro base; simp
  | cons p ps ih =>
    intro base
    rw [List.foldl_cons, ih, List.length_set, getD_set]
    by_cases hps : i ∈ ps ∧ i < base.length
    · rw [if_pos hps, if_pos ⟨List.mem_cons_of_mem p hps.1, hps.2⟩]
    · rw [if_neg hps]
      by_cases hpi : p = i ∧ i < base.length
      · rw [if_pos hpi, if_pos ⟨hpi.1 ▸ List.mem_cons_self p ps, hpi.2⟩]
      · rw [if_neg hpi, if_neg ?hn]
        case hn =>
          rintro ⟨hmem, hlen⟩
          rcases List.mem_cons.mp hmem with rfl | hmem2
          · exact hpi ⟨rfl, hlen⟩
          · exact hps ⟨hmem2, hlen⟩

theorem length_newFlag (flag : List ℤ) : (newFlag flag).length = flag.length := by
  rw [newFlag]
  by_cases h : flag.any fun v => v == -1
  · rw [if_pos h, foldl_set_length]
  · rw [if_neg h]

theorem newFlag_getD (flag : List ℤ) (h01 : ∀ v ∈ flag, v = 0 ∨ v = -1) (i : ℕ)
    (hi : i < flag.length) :
    (newFlag flag).getD i 0 = if i ∈ restrictedFailure flag then 0 else flag.getD i 0 := by
  rw [newFlag]
  by_cases hany : flag.any fun v => v == -1
  · rw [if_pos hany, foldl_set_getD]
    by_cases hrf : i ∈ restrictedFailure flag
    · rw [if_pos ⟨hrf, hi⟩, if_pos hrf]
    · rw [if_neg (by tauto), if_neg hrf]
  · rw [if_neg hany]
    have hallz : ∀ v ∈ flag, v = 0 := by
      intro v hv
      rcases h01 v hv with h | h
      · exact h
      · exfalso
        rw [Bool.not_eq_true, List.any_eq_false] at hany
        have hcontr := hany v hv
        rw [h] at hcontr
        simp at hcontr
    have hF : failureIdx flag = [] := by
      rw [List.eq_nil_iff_forall_not_mem]
      intro j hj
      rcases (mem_failureIdx flag j).mp hj with ⟨hjl, hjne⟩
      exact hjne (by
        rw [List.getD_eq_getElem _ _ hjl]
        exact hallz _ (List.getElem_mem hjl))
    have hrf : i ∉ restrictedFailure flag := by
      intro hc
      have := ((mem_restrictedFailure flag i).mp hc).1
      rw [hF] at this
      cases this
    rw [if_neg hrf]

theorem mem_finalSuccess (flag : List ℤ) (h01 : ∀ v ∈ flag, v = 0 ∨ v = -1) (i : ℕ) :
    i ∈ finalSuccess flag ↔
      i < flag.length ∧ (flag.getD i 0 = 0 ∨ i ∈ restrictedFailure flag) := by
  rw [finalSuccess, mem_successIdx, length_newFlag]
  constructor
  · rintro ⟨h1, h2⟩
    refine ⟨h1, ?_⟩
    rw [newFlag_getD flag h01 i h1] at h2
    by_cases hrf : i ∈ restrictedFailure flag
    · right; exact hrf
    · left
      rw [if_neg hrf] at h2
      rcases h01 (flag.getD i 0) (by
        rw [List.getD_eq_getElem _ _ h1]
        exact List.getElem_mem h1) with h | h
      · exact h
      · exfalso; rw [h] at h2; norm_num at h2
  · rintro ⟨h1, h2⟩
    refine ⟨h1, ?_⟩
    rw [newFlag_getD flag h01 i h1]
    by_cases hrf : i ∈ restrictedFailure flag
    · rw [if_pos hrf]; norm_num
    · rw [if_neg hrf]
      rcases h2 with h | h
      · rw [h]; norm_num
      · exact absurd h hrf

theorem finalSuccess_pairwise (flag : List ℤ) : (finalSuccess flag).Pairwise (· < ·) :=
  nonzeroIdx_pairwise _

theorem finalSuccess_mem_of_between (flag : List ℤ)
    (h01 : ∀ v ∈ flag, v = 0 ∨ v = -1) {a b i : ℕ}
    (ha : a ∈ finalSuccess flag) (hb : b ∈ finalSuccess flag)
    (hai : a ≤ i) (hib : i ≤ b) (hi : i < flag.length) : i ∈ finalSuccess flag := by
  rw [mem_finalSuccess flag h01] at ha hb ⊢
  refine ⟨hi, ?_⟩
  rcases h01 (flag.getD i 0) (by
    rw [List.getD_eq_getElem _ _ hi]
    exact List.getElem_mem hi) with hz | hneg
  · left; exact hz
  · right
    have hiF : i ∈ failureIdx flag :=
      (mem_failureIdx flag i).mpr ⟨hi, by rw [hneg]; norm_num⟩
    have hbelow : ∃ s ∈ successIdx flag, s < i := by
      rcases ha.2 with haz | harf
      · by_cases hae : a = i
        · exfalso
          rw [hae] at haz
          rw [haz] at hneg
          norm_num at hneg
        · exact ⟨a, (mem_successIdx_01 flag h01 a).mpr ⟨ha.1, haz⟩,
            lt_of_le_of_ne hai hae⟩
      · have hth := (mem_restrictedFailure flag a).mp harf
        cases hw : windowList flag with
        | nil =>
          exfalso
          have hth2 := hth.2.2
          have hhw : thHigh flag = -1 := by rw [thHigh, hw]
          rw [hhw] at hth2
          omega
        | cons w rest =>
          have hwmem : w ∈ windowList flag := by
            rw [hw]
            exact List.mem_cons_self w rest
          have hwprops := (mem_windowList flag w).mp hwmem
          obtain ⟨s, hsS, hsw⟩ := hwprops.2.2.1
          refine ⟨s, hsS, ?_⟩
          have hwa : (w : ℤ) ≤ (a : ℤ) := by
            have hlw : thLow flag = (w : ℤ) := by rw [thLow, hw]
            rw [← hlw]
            exact hth.2.1
          have hwa2 : w ≤ a := by exact_mod_cast hwa
          omega
    have habove : ∃ s ∈ successIdx flag, i < s := by
      rcases hb.2 with hbz | hbrf
      · by_cases hbe : b = i
        · exfalso
          rw [hbe] at hbz
          rw [hbz] at hneg
          norm_num at hneg
        · exact ⟨b, (mem_successIdx_01 flag h01 b).mpr ⟨hb.1, hbz⟩,
            lt_of_le_of_ne hib (fun hc => hbe hc.symm)⟩
      · have hth := (mem_restrictedFailure flag b).mp hbrf
        cases hw : windowList flag with
        | nil =>
          exfalso
          have hth2 := hth.2.2
          have hhw : thHigh flag = -1 := by rw [thHigh, hw]
          rw [hhw] at hth2
          omega
        | cons w rest =>
          have hwlast : (w :: rest).getLastD 0 ∈ windowList flag := by
            rw [hw]
            exact getLastD_mem (w :: rest) (List.cons_ne_nil w rest) 0
          have hwprops := (mem_windowList flag ((w :: rest).getLastD 0)).mp hwlast
          obtain ⟨s, hsS, hsw⟩ := hwprops.2.2.2
          refine ⟨s, hsS, ?_⟩
          have hbw : (b : ℤ) ≤ (((w :: rest).getLastD 0 : ℕ) : ℤ) := by
            have hhw : thHigh flag = (((w :: rest).getLastD 0 : ℕ) : ℤ) := by
              rw [thHigh, hw]
            rw [← hhw]
            exact hth.2.2
          have hbw2 : b ≤ (w :: rest).getLastD 0 := by exact_mod_cast hbw
          omega
    have hiW : i ∈ windowList flag :=
      (mem_windowList flag i).mpr ⟨hi, hiF, hbelow, habove⟩
    have hbounds := window_bounds flag hiW
    exact (mem_restrictedFailure flag i).mpr ⟨hiF, hbounds.1, hbounds.2⟩

theorem length_filter_range_ge (a : ℕ) :
    ∀ m : ℕ, ((List.range m).filter fun i => decide (a ≤ i)).length = m - a := by
  intro m
  induction m with
  | zero => simp
  | succ m ih =>
    rw [List.range_succ, List.filter_append, List.length_append, ih]
    by_cases h : a ≤ m
    · simp [h]
      omega
    · simp [h]
      omega

theorem length_filter_range_interval (a b : ℕ) (hab : a ≤ b) :
    ∀ m : ℕ, b < m →
      ((List.range m).filter fun i => decide (a ≤ i) && decide (i ≤ b)).length =
        b + 1 - a := by
  intro m
  induction m with
  | zero => intro h; omega
  | succ m ih =>
    intro hbm
    rw [List.range_succ, List.filter_append, List.length_append]
    by_cases hbm2 : b < m
    · rw [ih hbm2]
      have hmb : ¬ (m ≤ b) := by omega
      simp [hmb]
    · have hbe : b = m := by omega
      subst hbe
      have hcongr : ((List.range b).filter fun i => decide (a ≤ i) && decide (i ≤ b)) =
          (List.range b).filter fun i => decide (a ≤ i) := by
        apply List.filter_congr
        intro x hx
        have hxb : x ≤ b := le_of_lt (List.mem_range.mp hx)
        simp [hxb]
      rw [hcongr, length_filter_range_ge]
      simp [hab]
      omega

theorem length_tgrid (k : ℕ) : (tgrid k).length = k + 1 := by
  rw [tgrid, List.length_map, List.length_range]

theorem tgrid_getD (k j : ℕ) (hj : j < k + 1) : (tgrid k).getD j 0 = (j : ℚ) / k := by
  rw [tgrid, List.getD_eq_getElem _ _ (by rw [List.length_map, List.length_range]; exact hj),
    List.getElem_map, List.getElem_range]

theorem tgrid_cons (k : ℕ) :
    tgrid k = 0 :: ((List.range k).map fun j : ℕ => ((j + 1 : ℕ) : ℚ) / (k : ℚ)) := by
  rw [tgrid, List.range_succ_eq_map, List.map_cons, List.map_map]
  norm_num

theorem tgrid_filter_interval (k lo hib : ℕ) (hk : 1 ≤ k) (hlohi : lo ≤ hib)
    (hhib : hib ≤ k) :
    ((tgrid k).filter fun v =>
        decide ((tgrid k).getD lo 0 ≤ v) && decide (v ≤ (tgrid k).getD hib 0)).length =
      hib + 1 - lo := by
  have hmap : (tgrid k).filter (fun v =>
      decide ((tgrid k).getD lo 0 ≤ v) && decide (v ≤ (tgrid k).getD hib 0)) =
      ((List.range (k + 1)).filter fun j : ℕ =>
        decide ((tgrid k).getD lo 0 ≤ (j : ℚ) / (k : ℚ)) &&
          decide ((j : ℚ) / (k : ℚ) ≤ (tgrid k).getD hib 0)).map
        fun j : ℕ => (j : ℚ) / (k : ℚ) := by
    rw [tgrid, List.filter_map]
    rfl
  rw [hmap, List.length_map]
  have hcongr : ((List.range (k + 1)).filter fun j : ℕ =>
      decide ((tgrid k).getD lo 0 ≤ (j : ℚ) / (k : ℚ)) &&
        decide ((j : ℚ) / (k : ℚ) ≤ (tgrid k).getD hib 0)) =
      (List.range (k + 1)).filter fun j => decide (lo ≤ j) && decide (j ≤ hib) := by
    apply List.filter_congr
    intro j hj
    have hk0 : (0 : ℚ) < (k : ℚ) := by exact_mod_cast hk
    rw [tgrid_getD k lo (by omega), tgrid_getD k hib (by omega)]
    have h1 : ((lo : ℚ) / (k : ℚ) ≤ (j : ℚ) / (k : ℚ)) ↔ (lo ≤ j) := by
      rw [div_le_div_iff_of_pos_right hk0]
      exact_mod_cast Iff.rfl
    have h2 : ((j : ℚ) / (k : ℚ) ≤ (hib : ℚ) / (k : ℚ)) ↔ (j ≤ hib) := by
      rw [div_le_div_iff_of_pos_right hk0]
      exact_mod_cast Iff.rfl
    rw [decide_eq_decide.mpr h1, decide_eq_decide.mpr h2]
  rw [hcongr, length_filter_range_interval lo hib hlohi (k + 1) (by omega)]

theorem finalSuccess_lt (flag : List ℤ) {i : ℕ} (hi : i ∈ finalSuccess flag) :
    i < flag.length := by
  have hmem := (mem_successIdx _ i).mp hi
  rw [length_newFlag] at hmem
  exact hmem.1

theorem length_finalSuccess_le (flag : List ℤ) :
    (finalSuccess flag).length ≤ flag.length := by
  rw [finalSuccess, successIdx, nonzeroIdx]
  calc ((List.range ((newFlag flag).map (· + 1)).length).filter
      fun i => ((newFlag flag).map (· + 1)).getD i 0 != 0).length
      ≤ (List.range ((newFlag flag).map (· + 1)).length).length :=
        List.length_filter_le _ _
    _ = flag.length := by rw [List.length_range, List.length_map, length_newFlag]

theorem finalSuccess_count (flag : List ℤ) (h01 : ∀ v ∈ flag, v = 0 ∨ v = -1)
    {a : ℕ} {rest : List ℕ} (hfs : finalSuccess flag = a :: rest) :
    (finalSuccess flag).length = (a :: rest).getLastD 0 + 1 - a ∧
      a ≤ (a :: rest).getLastD 0 ∧ (a :: rest).getLastD 0 < flag.length := by
  have hpair : (a :: rest).Pairwise (· < ·) := by
    rw [← hfs]
    exact finalSuccess_pairwise flag
  have hamem : a ∈ finalSuccess flag := by
    rw [hfs]
    exact List.mem_cons_self a rest
  have hbmemL : (a :: rest).getLastD 0 ∈ a :: rest :=
    getLastD_mem (a :: rest) (List.cons_ne_nil a rest) 0
  have hbmem : (a :: rest).getLastD 0 ∈ finalSuccess flag := by
    rw [hfs]
    exact hbmemL
  have hab : a ≤ (a :: rest).getLastD 0 := by
    have := headD_le_of_mem hpair hbmemL 0
    rwa [List.headD_cons] at this
  have hblt : (a :: rest).getLastD 0 < flag.length := finalSuccess_lt flag hbmem
  refine ⟨?_, hab, hblt⟩
  have hfsfilter : finalSuccess flag = (List.range flag.length).filter
      fun i => ((newFlag flag).map (· + 1)).getD i 0 != 0 := by
    rw [finalSuccess, successIdx, nonzeroIdx, List.length_map, length_newFlag]
  have hcongr2 : ((List.range flag.length).filter
      fun i => ((newFlag flag).map (· + 1)).getD i 0 != 0) =
      (List.range flag.length).filter
        fun i => decide (a ≤ i) && decide (i ≤ (a :: rest).getLastD 0) := by
    apply List.filter_congr
    intro i hirange
    have hilt : i < flag.length := List.mem_range.mp hirange
    have hp : (((newFlag flag).map (· + 1)).getD i 0 != 0) = true ↔
        i ∈ finalSuccess flag := by
      rw [hfsfilter, List.mem_filter]
      constructor
      · intro h
        exact ⟨hirange, h⟩
      · intro h
        exact h.2
    by_cases hmem2 : i ∈ finalSuccess flag
    · have hmem3 : i ∈ a :: rest := by rw [← hfs]; exact hmem2
      have hA : a ≤ i := by
        have := headD_le_of_mem hpair hmem3 0
        rwa [List.headD_cons] at this
      have hB : i ≤ (a :: rest).getLastD 0 :=
        le_getLastD_of_mem (a :: rest) hpair i hmem3 0
      rw [hp.mpr hmem2, decide_eq_true hA, decide_eq_true hB]
      rfl
    · have hpf : (((newFlag flag).map (· + 1)).getD i 0 != 0) = false := by
        cases hcase : (((newFlag flag).map (· + 1)).getD i 0 != 0) with
        | false => rfl
        | true => exact absurd (hp.mp hcase) hmem2
      rw [hpf]
      by_cases hA : a ≤ i
      · have hB : ¬ i ≤ (a :: rest).getLastD 0 := fun h2 =>
          hmem2 (finalSuccess_mem_of_between flag h01 hamem hbmem hA h2 hilt)
        rw [decide_eq_true hA, decide_eq_false hB]
        rfl
      · rw [decide_eq_false hA]
        rfl
  rw [hfsfilter, hcongr2,
    length_filter_range_interval a ((a :: rest).getLastD 0) hab flag.length hblt]

theorem tNew_nil (k : ℕ) (flag : List ℤ) (h : finalSuccess flag = []) :
    tNew k flag = (tgrid k).take 2 := by
  rw [tNew, h]

theorem tNew_cons (k : ℕ) (flag : List ℤ) (a : ℕ) (rest : List ℕ)
    (h : finalSuccess flag = a :: rest) :
    tNew k flag =
      if a = 0 then (tgrid k).take ((a :: rest).length + 2)
      else 0 :: ((tgrid k).filter fun v =>
        decide ((tgrid k).getD (a + 1) 0 ≤ v) &&
          decide (v ≤ (tgrid k).getD ((a :: rest).getLastD 0 + 2) 0)) := by
  rw [tNew, h]

theorem tNew_spec (flag : List ℤ) (k : ℕ) (h01 : ∀ v ∈ flag, v = 0 ∨ v = -1)
    (hm : flag.length = k - 1) (hk : 2 ≤ k) :
    (tNew k flag).length = (finalSuccess flag).length + 2 ∧
      (tNew k flag).head? = some 0 := by
  cases hfs : finalSuccess flag with
  | nil =>
    rw [tNew_nil k flag hfs]
    constructor
    · rw [List.length_take, length_tgrid, List.length_nil]
      omega
    · rw [tgrid_cons]
      rfl
  | cons a rest =>
    rw [tNew_cons k flag a rest hfs]
    by_cases ha0 : a = 0
    · rw [if_pos ha0]
      have hlenle : (a :: rest).length ≤ k - 1 := by
        rw [← hfs, ← hm]
        exact length_finalSuccess_le flag
      constructor
      · rw [List.length_take, length_tgrid]
        omega
      · rw [tgrid_cons]
        rfl
    · rw [if_neg ha0]
      have hcount := finalSuccess_count flag h01 hfs
      have hblt : (a :: rest).getLastD 0 < k - 1 := by
        rw [← hm]
        exact hcount.2.2
      constructor
      · rw [List.length_cons,
          tgrid_filter_interval k (a + 1) ((a :: rest).getLastD 0 + 2) (by omega)
            (by omega) (by omega)]
        have hc1 := hcount.1
        rw [hfs, List.length_cons] at hc1
        rw [List.length_cons]
        omega
      · rfl

theorem runChainGo_length (n : ℕ) (initTol : ℚ) :
    ∀ (oras : List StepOracle) (tolCur : ℚ),
      (runChainGo n initTol tolCur oras).length = oras.length := by
  intro oras
  induction oras with
  | nil => intro t; rfl
  | cons o rest ih =>
    intro t
    rw [runChainGo, List.length_cons, List.length_cons, ih]

theorem runChainGo_mem (n : ℕ) (initTol : ℚ) :
    ∀ (oras : List StepOracle) (tolCur : ℚ) (r : StepRecord),
      r ∈ runChainGo n initTol tolCur oras →
        ∃ (t : ℚ) (o : StepOracle), r = runStep n t o := by
  intro oras
  induction oras with
  | nil => intro t r hr; cases hr
  | cons o rest ih =>
    intro t r hr
    rw [runChainGo] at hr
    rcases List.mem_cons.mp hr with rfl | hr2
    · exact ⟨t, o, rfl⟩
    · exact ih initTol r hr2

theorem runStep_flag01 (n : ℕ) (tol : ℚ) (o : StepOracle) :
    (runStep n tol o).flag = 0 ∨ (runStep n tol o).flag = -1 := by
  cases hn : o.firstNan with
  | true => right; simp [runStep, hn]
  | false =>
    rw [runStep]
    simp only [hn, Bool.false_eq_true, if_false]
    cases hr : reject n (o.res (stopIdx n tol o)) with
    | true => right; simp [hr]
    | false => left; simp [hr]

theorem lpFlags_length (n k : ℕ) (tol : ℚ) (ora : ℕ → StepOracle) :
    (lpFlags n k tol ora).length = k - 1 := by
  rw [lpFlags, List.length_map, lpRecords, runChain, runChainGo_length, List.length_map,
    List.length_range]

theorem lpPx0_length (n k : ℕ) (tol : ℚ) (ora : ℕ → StepOracle) :
    (lpPx0 n k tol ora).length = k - 1 := by
  rw [lpPx0, List.length_map, lpRecords, runChain, runChainGo_length, List.length_map,
    List.length_range]

theorem lpFlags_01 (n k : ℕ) (tol : ℚ) (ora : ℕ → StepOracle) :
    ∀ v ∈ lpFlags n k tol ora, v = 0 ∨ v = -1 := by
  intro v hv
  rw [lpFlags, List.mem_map] at hv
  obtain ⟨r, hr, rfl⟩ := hv
  obtain ⟨t, o, rfl⟩ := runChainGo_mem n tol _ tol r hr
  exact runStep_flag01 n t o

/-- Claim C10: on every input the returned time grid has exactly two more
entries than the number of returned transition matrices, and its first entry
is 0, whatever the pattern of per step successes and failures. -/
theorem claim_C10 (n k : ℕ) (tol : ℚ) (ora : ℕ → StepOracle) (hk : 2 ≤ k) :
    (lpT n k tol ora).length = (lpPx n k tol ora).length + 2 ∧
      (lpT n k tol ora).head? = some 0 := by
  have h01 := lpFlags_01 n k tol ora
  have hm := lpFlags_length n k tol ora
  have hspec := tNew_spec (lpFlags n k tol ora) k h01 hm hk
  constructor
  · rw [lpT, lpPx, List.length_map]
    exact hspec.1
  · rw [lpT]
    exact hspec.2

theorem claim_C10_witness :
    2 ≤ 5 ∧ ((lpT 1 5 (1 / 100) fun _ => ORej).length =
        (lpPx 1 5 (1 / 100) fun _ => ORej).length + 2 ∧
      (lpT 1 5 (1 / 100) fun _ => ORej).head? = some 0) :=
  ⟨by omega, claim_C10 1 5 (1 / 100) (fun _ => ORej) (by omega)⟩

/-- Claim C6: when every step is flagged failed, the model returns an empty
matrix sequence and a grid consisting of exactly the first two original grid
points; the repair and resize phases are total functions, so no exception is
raised. -/
theorem claim_C6 (n k : ℕ) (tol : ℚ) (ora : ℕ → StepOracle) (hk : 2 ≤ k)
    (hfail : ∀ r ∈ lpRecords n k tol ora, r.flag = -1) :
    lpPx n k tol ora = [] ∧ lpT n k tol ora = (tgrid k).take 2 ∧
      (lpT n k tol ora).length = 2 := by
  have hfl : ∀ v ∈ lpFlags n k tol ora, v = -1 := by
    intro v hv
    rw [lpFlags, List.mem_map] at hv
    obtain ⟨r, hr, rfl⟩ := hv
    exact hfail r hr
  have h01 : ∀ v ∈ lpFlags n k tol ora, v = 0 ∨ v = -1 := fun v hv => Or.inr (hfl v hv)
  have hS : successIdx (lpFlags n k tol ora) = [] := by
    rw [List.eq_nil_iff_forall_not_mem]
    intro s hs
    rcases (mem_successIdx_01 _ h01 s).mp hs with ⟨hlt, hz⟩
    have hmemv : (lpFlags n k tol ora).getD s 0 ∈ lpFlags n k tol ora := by
      rw [List.getD_eq_getElem _ _ hlt]
      exact List.getElem_mem hlt
    have hneg := hfl _ hmemv
    rw [hz] at hneg
    norm_num at hneg
  have hW : windowList (lpFlags n k tol ora) = [] := by
    rw [List.eq_nil_iff_forall_not_mem]
    intro w hw
    have hprops := (mem_windowList _ w).mp hw
    obtain ⟨s, hsS, -⟩ := hprops.2.2.1
    rw [hS] at hsS
    cases hsS
  have hRF : restrictedFailure (lpFlags n k tol ora) = [] := by
    rw [List.eq_nil_iff_forall_not_mem]
    intro f hf
    have hprops := (mem_restrictedFailure _ f).mp hf
    have hth : thHigh (lpFlags n k tol ora) = -1 := by rw [thHigh, hW]
    have hle := hprops.2.2
    rw [hth] at hle
    omega
  have hFS : finalSuccess (lpFlags n k tol ora) = [] := by
    rw [List.eq_nil_iff_forall_not_mem]
    intro i hi2
    rcases (mem_finalSuccess _ h01 i).mp hi2 with ⟨hlt, hcase⟩
    rcases hcase with hz | hrf
    · have hmemv : (lpFlags n k tol ora).getD i 0 ∈ lpFlags n k tol ora := by
        rw [List.getD_eq_getElem _ _ hlt]
        exact List.getElem_mem hlt
      have hneg := hfl _ hmemv
      rw [hz] at hneg
      norm_num at hneg
    · rw [hRF] at hrf
      cases hrf
  refine ⟨?_, ?_, ?_⟩
  · rw [lpPx, hFS]
    rfl
  · rw [lpT]
    exact tNew_nil k _ hFS
  · rw [lpT, tNew_nil k _ hFS, List.length_take, length_tgrid]
    omega

theorem claim_C6_witness :
    lpPx 1 2 (1 / 100) (fun _ => ONan) = [] ∧
      lpT 1 2 (1 / 100) (fun _ => ONan) = (tgrid 2).take 2 ∧
      (lpT 1 2 (1 / 100) (fun _ => ONan)).length = 2 :=
  claim_C6 1 2 (1 / 100) (fun _ => ONan) (le_refl 2) (by
    intro r hr
    rw [lpRecords, runChain] at hr
    have hl : (List.range (2 - 1)).map (fun _ => ONan) = [ONan] := rfl
    rw [hl, runChainGo, runChainGo] at hr
    rcases List.mem_singleton.mp hr with rfl
    simp [runStep, ONan])

theorem reject_goodres : reject 1 ⟨0, 0, [1]⟩ = false := by
  have hrows : rowSums 1 [(1 : ℚ)] = [1] := by
    rw [rowSums]
    simp [List.range_succ, List.range_zero]
  have h1 : test 1 [(1 : ℚ)] = true := by
    rw [test, if_pos (by norm_num : ([(1 : ℚ)].length = 1 * 1)), hrows]
    simp only [List.all_cons, List.all_nil, Bool.and_true, isclose]
    rw [decide_eq_true]
    norm_num
  rw [reject, h1]
  simp only [List.any_cons, List.any_nil, Bool.or_false, bne_self_eq_false]
  norm_num

theorem stops_OGood : stops 1 (1 / 100) OGood 0 = true := by
  have h : reject 1 (OGood.res 0) = false := reject_goodres
  rw [stops, h]
  rfl

theorem stops_ORej : stops 1 (1 / 100) ORej 0 = true := by
  have hdec : decide ((1 / 100 : ℚ) * 10 ^ 0 < 1 / 1000) = false :=
    decide_eq_false (by norm_num)
  rw [stops, hdec, Bool.false_and, Bool.not_false, Bool.or_true]

theorem runStep_OGood : runStep 1 (1 / 100) OGood = ⟨0, [1], 1 / 100, 1⟩ := by
  have hJ : stopIdx 1 (1 / 100) OGood = 0 := stopIdx_eq_zero _ _ _ stops_OGood
  have hfn : OGood.firstNan = false := rfl
  rw [runStep, hfn]
  simp only [Bool.false_eq_true, if_false]
  rw [hJ]
  have hres : OGood.res 0 = ⟨0, 0, [1]⟩ := rfl
  rw [hres, reject_goodres]
  rfl

theorem runStep_ORej : runStep 1 (1 / 100) ORej = ⟨-1, [1], 1 / 100, 1⟩ := by
  have hJ : stopIdx 1 (1 / 100) ORej = 0 := stopIdx_eq_zero _ _ _ stops_ORej
  have hfn : ORej.firstNan = false := rfl
  rw [runStep, hfn]
  simp only [Bool.false_eq_true, if_false]
  rw [hJ]
  have hres : ORej.res 0 = ⟨1, 0, [1]⟩ := rfl
  have hrej : reject 1 (⟨1, 0, [1]⟩ : LPResult) = true := by
    rw [reject]
    rfl
  rw [hres, hrej]
  rfl

theorem map_getD_range {α : Type} (l : List α) (d : α) :
    (List.range l.length).map (fun i => l.getD i d) = l := by
  apply List.ext_getElem
  · rw [List.length_map, List.length_range]
  · intro i h1 h2
    rw [List.getElem_map, List.getElem_range, List.getD_eq_getElem _ _ h2]

/-- Claim C8: when every one of the k - 1 steps is accepted, the repair phase
is a no-op — the model returns exactly the stored matrices unchanged (only
reshaped to n by n), and the full evenly spaced grid of length k + 1. -/
theorem claim_C8 (n k : ℕ) (tol : ℚ) (ora : ℕ → StepOracle) (hk : 2 ≤ k)
    (hall : ∀ r ∈ lpRecords n k tol ora, r.flag = 0) :
    lpPx n k tol ora = (lpPx0 n k tol ora).map (reshapeQ n) ∧
      lpT n k tol ora = tgrid k ∧
      (lpPx n k tol ora).length = k - 1 ∧ (lpT n k tol ora).length = k + 1 := by
  have hm := lpFlags_length n k tol ora
  have hfl0 : ∀ v ∈ lpFlags n k tol ora, v = 0 := by
    intro v hv
    rw [lpFlags, List.mem_map] at hv
    obtain ⟨r, hr, rfl⟩ := hv
    exact hall r hr
  have hany : ((lpFlags n k tol ora).any fun v => v == -1) = false := by
    rw [List.any_eq_false]
    intro v hv
    rw [hfl0 v hv]
    decide
  have hnf : newFlag (lpFlags n k tol ora) = lpFlags n k tol ora := by
    rw [newFlag, hany]
    rfl
  have hFS : finalSuccess (lpFlags n k tol ora) = List.range (k - 1) := by
    rw [finalSuccess, hnf, successIdx, nonzeroIdx, List.length_map, hm]
    apply List.filter_eq_self.mpr
    intro i hi
    have hilt : i < k - 1 := List.mem_range.mp hi
    have hltm : i < (lpFlags n k tol ora).length := by rw [hm]; exact hilt
    rw [getD_map_addone _ i hltm]
    have hz : (lpFlags n k tol ora).getD i 0 = 0 := by
      have hmemv : (lpFlags n k tol ora).getD i 0 ∈ lpFlags n k tol ora := by
        rw [List.getD_eq_getElem _ _ hltm]
        exact List.getElem_mem hltm
      exact hfl0 _ hmemv
    rw [hz]
    decide
  have hRP : repairedPx n k (lpPx0 n k tol ora) (lpFlags n k tol ora) =
      (lpPx0 n k tol ora).map (reshapeQ n) := by
    rw [repairedPx, hany]
    simp
  have hPxlen : ((lpPx0 n k tol ora).map (reshapeQ n)).length = k - 1 := by
    rw [List.length_map, lpPx0_length]
  have hPx : lpPx n k tol ora = (lpPx0 n k tol ora).map (reshapeQ n) := by
    rw [lpPx, hFS]
    simp only [hRP]
    rw [← hPxlen, map_getD_range]
  have hT : lpT n k tol ora = tgrid k := by
    obtain ⟨j, hj⟩ : ∃ j, k - 1 = j + 1 := ⟨k - 2, by omega⟩
    have hFS2 : finalSuccess (lpFlags n k tol ora) = 0 :: (List.range j).map Nat.succ := by
      rw [hFS, hj, List.range_succ_eq_map]
    rw [lpT, tNew_cons k _ 0 ((List.range j).map Nat.succ) hFS2, if_pos rfl]
    have hlen2 : (0 :: (List.range j).map Nat.succ).length + 2 = k + 1 := by
      rw [List.length_cons, List.length_map, List.length_range]
      omega
    rw [hlen2]
    apply List.take_of_length_le
    rw [length_tgrid]
  refine ⟨hPx, hT, ?_, ?_⟩
  · rw [hPx, List.length_map, lpPx0_length]
  · rw [hT, length_tgrid]

theorem claim_C8_witness :
    lpPx 1 2 (1 / 100) (fun _ => OGood) =
        (lpPx0 1 2 (1 / 100) fun _ => OGood).map (reshapeQ 1) ∧
      lpT 1 2 (1 / 100) (fun _ => OGood) = tgrid 2 ∧
      (lpPx 1 2 (1 / 100) fun _ => OGood).length = 2 - 1 ∧
      (lpT 1 2 (1 / 100) fun _ => OGood).length = 2 + 1 :=
  claim_C8 1 2 (1 / 100) (fun _ => OGood) (le_refl 2) (by
    intro r hr
    rw [lpRecords, runChain] at hr
    have hl : (List.range (2 - 1)).map (fun _ => OGood) = [OGood] := rfl
    rw [hl, runChainGo, runChainGo] at hr
    rcases List.mem_singleton.mp hr with rfl
    rw [runStep_OGood])

theorem finalSuccess_C5 : finalSuccess [0, 0, 0, -1] = [0, 1, 2] := by decide

theorem lpFlags_C5 : lpFlags 1 5 (1 / 100) oraC5 = [0, 0, 0, -1] := by
  have hl : (List.range (5 - 1)).map oraC5 = [OGood, OGood, OGood, ORej] := rfl
  rw [lpFlags, lpRecords, runChain, hl, runChainGo, runChainGo, runChainGo, runChainGo,
    runChainGo, runStep_OGood, runStep_ORej]
  rfl

theorem tgrid5 : tgrid 5 = [0, 1 / 5, 2 / 5, 3 / 5, 4 / 5, 1] := by
  rw [tgrid]
  norm_num [List.range_succ]

theorem tNewC5 : tNew 5 [0, 0, 0, -1] = (tgrid 5).take 5 := by
  rw [tNew_cons 5 [0, 0, 0, -1] 0 [1, 2] finalSuccess_C5, if_pos rfl]
  norm_num

theorem noticeShort_cons (k : ℕ) (flag : List ℤ) (a : ℕ) (rest : List ℕ)
    (h : finalSuccess flag = a :: rest) :
    noticeShort k flag = ((tNew k flag).getLastD 0 != (tgrid k).getLastD 0) := by
  rw [noticeShort, h]

theorem noticeC5 : noticeShort 5 [0, 0, 0, -1] = true := by
  rw [noticeShort_cons 5 [0, 0, 0, -1] 0 [1, 2] finalSuccess_C5, tNewC5, tgrid5]
  have ht : (([0, 1 / 5, 2 / 5, 3 / 5, 4 / 5, 1] : List ℚ).take 5) =
      [0, 1 / 5, 2 / 5, 3 / 5, 4 / 5] := rfl
  rw [ht]
  have h45 : ([0, 1 / 5, 2 / 5, 3 / 5, 4 / 5] : List ℚ).getLastD 0 = 4 / 5 := rfl
  have h1 : ([0, 1 / 5, 2 / 5, 3 / 5, 4 / 5, 1] : List ℚ).getLastD 0 = 1 := rfl
  rw [h45, h1]
  simp only [bne_iff_ne, ne_eq]
  norm_num

/-- Claim C5 as stated is false at a concrete run: with k = 5, steps 0, 1, 2
accepted and step 3 never accepted, the model returns 3 matrices but a grid of
length 5, not 4. -/
theorem claim_C5_cex :
    lpFlags 1 5 (1 / 100) oraC5 = [0, 0, 0, -1] ∧
      (lpPx 1 5 (1 / 100) oraC5).length = 3 ∧
      (lpT 1 5 (1 / 100) oraC5).length = 5 ∧
      ¬ (lpT 1 5 (1 / 100) oraC5).length = 4 := by
  refine ⟨lpFlags_C5, ?_, ?_, ?_⟩
  · rw [lpPx, lpFlags_C5, finalSuccess_C5]
    rfl
  · rw [lpT, lpFlags_C5, tNewC5, List.length_take, length_tgrid]
    norm_num
  · rw [lpT, lpFlags_C5, tNewC5, List.length_take, length_tgrid]
    norm_num

/-- Claim C5 (amended): with k = 5, when steps 0, 1, 2 each produce an
accepted result and step 3 is never accepted, the model returns exactly 3
matrices and a time grid of length 5 — the first five original grid points —
together with a shortened notice. -/
theorem claim_C5 (n : ℕ) (tol : ℚ) (ora : ℕ → StepOracle)
    (hflags : lpFlags n 5 tol ora = [0, 0, 0, -1]) :
    (lpPx n 5 tol ora).length = 3 ∧ (lpT n 5 tol ora).length = 5 ∧
      lpNoticeShort n 5 tol ora = true := by
  refine ⟨?_, ?_, ?_⟩
  · rw [lpPx, hflags, finalSuccess_C5]
    rfl
  · rw [lpT, hflags, tNewC5, List.length_take, length_tgrid]
    norm_num
  · rw [lpNoticeShort, hflags, noticeC5]

theorem claim_C5_witness :
    lpFlags 1 5 (1 / 100) oraC5 = [0, 0, 0, -1] ∧
      ((lpPx 1 5 (1 / 100) oraC5).length = 3 ∧ (lpT 1 5 (1 / 100) oraC5).length = 5 ∧
        lpNoticeShort 1 5 (1 / 100) oraC5 = true) :=
  ⟨lpFlags_C5, claim_C5 1 (1 / 100) oraC5 lpFlags_C5⟩

theorem alphaList5 : alphaList 5 = [1, 1 / 2, 1 / 3, 1 / 4] := by
  rw [alphaList, hsteps, tgrid5]
  norm_num

/-- Claim C2 fails on the code: with flags valid, valid, failed, valid (k = 5)
the nearest valid step below the failed step 2 is step 1, but the repair pass
reads its lower matrix and coefficient at index 0 — the entry of the masked
minvec array — so the replacement stored for step 2 blends the matrix of step
0 (coefficient 1) with the matrix of step 3 (coefficient 1/4) instead of the
nearest below neighbour, contradicting the documented nearest neighbour
interpolation. -/
theorem claim_C2 (n : ℕ) (A B C D : List ℚ) :
    (repairedPx n 5 [A, B, C, D] flagC2).getD 2 (reshapeQ n []) =
      interpolate (reshapeQ n A) (reshapeQ n D) ((1 : ℚ) : ℝ) ((1 / 4 : ℚ) : ℝ)
        ((1 / 3 : ℚ) : ℝ) ∧
      maxBelow (successIdx flagC2) 2 = some 1 ∧
      (minvecMasked flagC2).getD 0 0 = 0 ∧
      (maxvecMasked flagC2).getD 0 0 = 3 := by
  refine ⟨?_, by decide, by decide, by decide⟩
  have hany : (flagC2.any fun v => v == -1) = true := by decide
  have hRF : restrictedFailure flagC2 = [2] := by decide
  simp only [repairedPx, hany, hRF, alphaList5, if_true]
  rfl

/-- Claim C9: Curran interpolation is exact at the boundary: when the failed
step coefficient equals the below (resp. above) neighbour coefficient, and the
two neighbour x values are distinct, the interpolated matrix equals the below
(resp. above) neighbour matrix exactly. -/
theorem claim_C9 {n : ℕ} (Pmin Pmax : Fin n → Fin n → ℝ) (alphaMin alphaMax alphaInterp : ℝ)
    (hx : 1 / Real.sqrt (1 + alphaMin) ≠ 1 / Real.sqrt (1 + alphaMax)) :
    (alphaInterp = alphaMin → interpolate Pmin Pmax alphaMin alphaMax alphaInterp = Pmin) ∧
      (alphaInterp = alphaMax → interpolate Pmin Pmax alphaMin alphaMax alphaInterp = Pmax) := by
  have hden : 1 / Real.sqrt (1 + alphaMin) - 1 / Real.sqrt (1 + alphaMax) ≠ 0 :=
    sub_ne_zero.mpr hx
  constructor
  · rintro rfl
    simp only [interpolate]
    rw [div_self hden, sub_self, zero_div, one_smul, zero_smul, add_zero]
  · rintro rfl
    simp only [interpolate]
    rw [div_self hden, sub_self, zero_div, one_smul, zero_smul, zero_add]

theorem claim_C9_witness :
    (1 / Real.sqrt (1 + (0 : ℝ)) ≠ 1 / Real.sqrt (1 + 3)) ∧
      interpolate ((fun _ _ => (0 : ℝ)) : Fin 1 → Fin 1 → ℝ) (fun _ _ => 1) 0 3 0 =
        fun _ _ => (0 : ℝ) := by
  have h1 : Real.sqrt (1 + (0 : ℝ)) = 1 := by rw [add_zero, Real.sqrt_one]
  have h4 : Real.sqrt (1 + (3 : ℝ)) = 2 := by
    rw [show (1 + (3 : ℝ)) = 2 ^ 2 by norm_num, Real.sqrt_sq (by norm_num : (0 : ℝ) ≤ 2)]
  have hx : 1 / Real.sqrt (1 + (0 : ℝ)) ≠ 1 / Real.sqrt (1 + 3) := by
    rw [h1, h4]
    norm_num
  exact ⟨hx, (claim_C9 _ _ 0 3 0 hx).1 rfl⟩

end Willowtree
